import Mathlib

set_option maxRecDepth 1024

/-!
Verification of the `astropix-analysis` repository against its specification.

This file contains a shallow embedding, in Lean 4, of the parts of the
`astropix_analysis` Python package that the checked claims are about:

* `fmt.py`: Gray-code decoding, the `BitPattern` bit-slicing helper, the
  `AstroPix4Hit` constructor, `AstroPix4Readout.is_valid_start_byte`, the
  full `AstroPix4Readout.decode` state machine, and
  `AbstractAstroPixReadout.from_file`;
* `fileio.py`: the `FileHeader` serialization (modelled over a JSON value
  type), `FileHeader.write` / `FileHeader.read`, and `FileHeader.__eq__`;
* `legacy.py`: the `log_to_apx` conversion loop;
* `hist.py`: the `AbstractHistogram` shape check, `set_content` and the
  arithmetic operators;
* `modeling.py`: the abstract-method table of `AbstractFitModel`, `Constant`
  and `Line`.

Python `bytes` objects are modelled as `List Nat` (each entry a byte value),
Python `int` as `Nat`/`Int`, Python `float` results of exact integer
divisions as `ℚ`, and raising an exception as returning `Except.error`.
While-loops are modelled as fuel-consuming structural recursions; the fuel
supplied at each call site is an upper bound on the number of iterations the
Python loop can make, so the fuel never runs out on the loops' actual
domains, and the fuel-based functions reduce definitionally, which keeps all
concrete evaluations kernel-checkable.
-/

namespace AstroPix

/-! ## `fmt.py`: Gray code

`AbstractAstroPixHit.gray_to_decimal` runs the loop

```
decimal = gray
mask = gray
while mask:
    mask >>= 1
    decimal ^= mask
return decimal
```

`grayLoop fuel decimal mask` is that loop with explicit fuel.  Each
iteration at least halves `mask`, so the loop makes at most `mask`
iterations and calling it with `fuel := gray` is always enough.
-/

/-- The while-loop of `AbstractAstroPixHit.gray_to_decimal`. -/
def grayLoop : Nat → Nat → Nat → Nat
  | 0, decimal, _ => decimal
  | fuel + 1, decimal, mask =>
    if mask = 0 then decimal
    else grayLoop fuel (decimal ^^^ (mask >>> 1)) (mask >>> 1)

/-- `AbstractAstroPixHit.gray_to_decimal` (fmt.py, lines 148-163). -/
def gray_to_decimal (gray : Nat) : Nat := grayLoop gray gray gray

theorem grayLoop_mask_zero (fuel decimal : Nat) : grayLoop fuel decimal 0 = decimal := by
  cases fuel <;> simp [grayLoop]

/-- The accumulator of `grayLoop` factors out as an XOR, provided the fuel
covers the number of iterations. -/
theorem grayLoop_xor : ∀ fuel decimal mask : Nat, mask ≤ fuel →
    grayLoop fuel decimal mask = decimal ^^^ grayLoop mask 0 mask := by
  intro fuel
  induction fuel using Nat.strong_induction_on with
  | _ fuel ih =>
    intro decimal mask h
    cases fuel with
    | zero =>
      interval_cases mask
      simp [grayLoop]
    | succ f =>
      rcases Nat.eq_zero_or_pos mask with hm | hm
      · subst hm
        simp [grayLoop]
      · obtain ⟨k, rfl⟩ : ∃ k, mask = k + 1 := ⟨mask - 1, (Nat.succ_pred_eq_of_pos hm).symm⟩
        have hlt : (k + 1) >>> 1 < k + 1 := by
          simp only [Nat.shiftRight_one]
          exact Nat.div_lt_self (Nat.succ_pos k) (by norm_num)
        have hle : (k + 1) >>> 1 ≤ f := by omega
        have hle' : (k + 1) >>> 1 ≤ k := by omega
        rw [show grayLoop (f + 1) decimal (k + 1)
              = grayLoop f (decimal ^^^ ((k + 1) >>> 1)) ((k + 1) >>> 1) by simp [grayLoop]]
        rw [show grayLoop (k + 1) 0 (k + 1)
              = grayLoop k (0 ^^^ ((k + 1) >>> 1)) ((k + 1) >>> 1) by simp [grayLoop]]
        rw [ih f (by omega) _ _ hle, ih k (by omega) _ _ hle', Nat.zero_xor, Nat.xor_assoc]

/-- The defining recurrence of the Gray decoder:
`gray_to_decimal g = g ^^^ gray_to_decimal (g >>> 1)`. -/
theorem gray_to_decimal_rec (g : Nat) :
    gray_to_decimal g = g ^^^ gray_to_decimal (g >>> 1) := by
  rcases Nat.eq_zero_or_pos g with hg | hg
  · subst hg
    simp [gray_to_decimal, grayLoop]
  · obtain ⟨k, rfl⟩ : ∃ k, g = k + 1 := ⟨g - 1, (Nat.succ_pred_eq_of_pos hg).symm⟩
    have hle : (k + 1) >>> 1 ≤ k := by
      simp only [Nat.shiftRight_one]
      omega
    have h1 : gray_to_decimal (k + 1)
        = ((k + 1) ^^^ ((k + 1) >>> 1)) ^^^ grayLoop ((k + 1) >>> 1) 0 ((k + 1) >>> 1) := by
      unfold gray_to_decimal
      rw [show grayLoop (k + 1) (k + 1) (k + 1)
            = grayLoop k ((k + 1) ^^^ ((k + 1) >>> 1)) ((k + 1) >>> 1) by simp [grayLoop]]
      exact grayLoop_xor k _ _ hle
    have h2 : gray_to_decimal ((k + 1) >>> 1)
        = ((k + 1) >>> 1) ^^^ grayLoop ((k + 1) >>> 1) 0 ((k + 1) >>> 1) := by
      unfold gray_to_decimal
      exact grayLoop_xor _ _ _ (le_refl _)
    rw [h1, h2, Nat.xor_assoc]

theorem shiftRight_xor (a b n : Nat) : (a ^^^ b) >>> n = (a >>> n) ^^^ (b >>> n) := by
  apply Nat.eq_of_testBit_eq
  intro i
  simp [Nat.testBit_shiftRight, Nat.testBit_xor]

/-- Shifting commutes with Gray decoding. -/
theorem gray_to_decimal_shiftRight (g : Nat) :
    gray_to_decimal g >>> 1 = gray_to_decimal (g >>> 1) := by
  induction g using Nat.strong_induction_on with
  | _ g ih =>
    rcases Nat.eq_zero_or_pos g with hg | hg
    · subst hg
      simp [gray_to_decimal, grayLoop]
    · have hlt : g >>> 1 < g := by
        simp only [Nat.shiftRight_one]
        exact Nat.div_lt_self hg (by norm_num)
      rw [gray_to_decimal_rec g, shiftRight_xor, ih _ hlt, ← gray_to_decimal_rec (g >>> 1)]

/-- Gray decoding followed by Gray re-encoding (`d XOR (d >> 1)`) is the
identity, on all of `Nat`. -/
theorem gray_decode_then_encode (g : Nat) :
    gray_to_decimal g ^^^ (gray_to_decimal g >>> 1) = g := by
  rw [gray_to_decimal_shiftRight, gray_to_decimal_rec g, Nat.xor_assoc, Nat.xor_self,
    Nat.xor_zero]

/-- Gray decoding preserves the bit width of its argument. -/
theorem gray_to_decimal_lt (k : Nat) : ∀ g : Nat, g < 2 ^ k → gray_to_decimal g < 2 ^ k := by
  intro g
  induction g using Nat.strong_induction_on with
  | _ g ih =>
    intro hg
    rcases Nat.eq_zero_or_pos g with h0 | h0
    · subst h0
      simp [gray_to_decimal, grayLoop]
    · have hlt : g >>> 1 < g := by
        simp only [Nat.shiftRight_one]
        exact Nat.div_lt_self h0 (by norm_num)
      rw [gray_to_decimal_rec g]
      exact Nat.xor_lt_two_pow hg (ih _ hlt (lt_of_le_of_lt (Nat.le_of_lt hlt) hg))

/-- Claim C8: for every integer `g` in `0 .. 2^17`, decoding `g` as Gray code with
`AbstractAstroPixHit.gray_to_decimal` and re-encoding the decimal result `d`
as `d XOR (d >> 1)` reproduces `g` exactly.  (The property in fact holds for
every natural number; the hypothesis mirrors the range stated in the claim.) -/
theorem gray_roundtrip_claim (g : Nat) (_h : g ≤ 2 ^ 17) :
    gray_to_decimal g ^^^ (gray_to_decimal g >>> 1) = g :=
  gray_decode_then_encode g

/-- Witness for `gray_roundtrip_claim` at the concrete input `g = 99999`. -/
theorem gray_roundtrip_claim_witness :
    99999 ≤ 2 ^ 17 ∧ gray_to_decimal 99999 ^^^ (gray_to_decimal 99999 >>> 1) = 99999 :=
  ⟨by norm_num, gray_roundtrip_claim 99999 (by norm_num)⟩

/-! ## `fmt.py`: `BitPattern` and bit-order reversal

`BitPattern(data)` renders a `bytes` object as the string of its bits, most
significant bit of each byte first, bytes in order; slicing the string and
converting with `int(_, 2)` extracts an unsigned field.  We model the bit
string as a `List Bool` and the `int(s, 2)` conversion as `bitsVal`;
`int('')` raises a `ValueError` and indexing past the end of the string
raises an `IndexError`, both modelled as `Except.error`. -/

/-- Value of a bit string, most significant bit first (`int(s, 2)`). -/
def bitsVal : List Bool → Nat
  | [] => 0
  | b :: rest => (cond b 1 0) * 2 ^ rest.length + bitsVal rest

/-- The bits of one byte, most significant first. -/
def byteBits (b : Nat) : List Bool := (List.range 8).map (fun k => b.testBit (7 - k))

/-- The bit string underlying `BitPattern(data)`. -/
def dataBits (data : List Nat) : List Bool := (data.map byteBits).flatten

/-- `BitPattern.__getitem__` with a slice `[a:b]`: `int(str_slice, 2)`,
raising `ValueError` when the slice is empty. -/
def bpSlice (bits : List Bool) (a b : Nat) : Except String Nat :=
  let s := (bits.drop a).take (b - a)
  if s.isEmpty then .error "ValueError: invalid literal for int() with base 2"
  else .ok (bitsVal s)

/-- `BitPattern.__getitem__` with a single integer index. -/
def bpIndex (bits : List Bool) (i : Nat) : Except String Nat :=
  match bits[i]? with
  | some bit => .ok (cond bit 1 0)
  | none => .error "IndexError: string index out of range"

/-- `reverse_bit_order` on a single byte (the `_BIT_REVERSE_TABLE` entry):
the byte with its bit order reversed. -/
def revByte (b : Nat) : Nat := bitsVal ((List.range 8).map (fun k => b.testBit k))

/-- `reverse_bit_order` (fmt.py, lines 40-43). -/
def reverse_bit_order (data : List Nat) : List Nat := data.map revByte

theorem bitsVal_lt (s : List Bool) : bitsVal s < 2 ^ s.length := by
  induction s with
  | nil => simp [bitsVal]
  | cons b rest ih =>
    simp only [bitsVal, List.length_cons, pow_succ]
    cases b <;> simp <;> omega

theorem byteBits_length (b : Nat) : (byteBits b).length = 8 := by
  simp [byteBits]

theorem dataBits_cons (b : Nat) (rest : List Nat) :
    dataBits (b :: rest) = byteBits b ++ dataBits rest := by
  simp [dataBits]

theorem dataBits_length (data : List Nat) : (dataBits data).length = 8 * data.length := by
  induction data with
  | nil => simp [dataBits]
  | cons b rest ih =>
    rw [dataBits_cons, List.length_append, byteBits_length, ih, List.length_cons]
    ring

/-- On an in-range index, `bpIndex` succeeds with the bit value. -/
theorem bpIndex_ok (bits : List Bool) (i : Nat) (h : i < bits.length) :
    bpIndex bits i = .ok (cond (bits.getD i false) 1 0) := by
  cases hh : bits[i]? with
  | none =>
    rw [List.getElem?_eq_none_iff] at hh
    omega
  | some b =>
    have hd : bits.getD i false = b := by
      simp [List.getD, hh]
    rw [bpIndex, hh, hd]

/-- On a nonempty in-range slice, `bpSlice` succeeds with the slice value. -/
theorem bpSlice_ok (bits : List Bool) (a b : Nat) (hab : a < b) (ha : a < bits.length) :
    bpSlice bits a b = .ok (bitsVal ((bits.drop a).take (b - a))) := by
  have : ((bits.drop a).take (b - a)).length = min (b - a) (bits.length - a) := by
    simp [List.length_take, List.length_drop]
  have hne : ¬ ((bits.drop a).take (b - a)).isEmpty := by
    rw [List.isEmpty_iff_length_eq_zero, this]
    omega
  simp [bpSlice, hne]

/-! ## `fmt.py`: `AstroPix4Hit`

The `_LAYOUT` of `AstroPix4Hit` (fmt.py, lines 263-283), the constructor
(lines 288-304) and `_compose_ts` (lines 306-324), for an 8-byte hit.  The
`tot_us` field is a Python float computed as the quotient of two exact
integers by `20.`; it is modelled as a rational number. -/

structure AstroPix4Hit where
  /-- `self._data`: the raw (bit-reversed) hit bytes, the hit's identity. -/
  raw : List Nat
  chip_id : Nat
  payload : Nat
  row : Nat
  column : Nat
  ts_neg1 : Nat
  ts_coarse1 : Nat
  ts_fine1 : Nat
  ts_tdc1 : Nat
  ts_neg2 : Nat
  ts_coarse2 : Nat
  ts_fine2 : Nat
  ts_tdc2 : Nat
  ts_dec1 : Nat
  ts_dec2 : Nat
  tot_us : ℚ
  readout_id : Nat
  timestamp : Nat
  decoding_order : Nat
deriving Repr, DecidableEq

/-- `AstroPix4Hit.CLOCK_ROLLOVER`. -/
def CLOCK_ROLLOVER : Nat := 2 ^ 17

/-- `AstroPix4Hit._compose_ts`. -/
def compose_ts (ts_coarse ts_fine : Nat) : Nat :=
  gray_to_decimal ((ts_coarse <<< 3) + ts_fine)

/-- `AstroPix4Hit.__init__(data, readout_id, timestamp, decoding_order)`:
extract the `_LAYOUT` fields from the bit pattern of `data`, then compute
the derived quantities.  Field extraction raises (`Except.error`) exactly
when the corresponding Python slice of the bit string is empty or the
single-bit index is out of range. -/
def mkAstroPix4Hit (data : List Nat) (readout_id timestamp decoding_order : Nat) :
    Except String AstroPix4Hit := do
  let bits := dataBits data
  let chip_id ← bpSlice bits 0 5
  let payload ← bpSlice bits 5 8
  let row ← bpSlice bits 8 13
  let column ← bpSlice bits 13 18
  let ts_neg1 ← bpIndex bits 18
  let ts_coarse1 ← bpSlice bits 19 33
  let ts_fine1 ← bpSlice bits 33 36
  let ts_tdc1 ← bpSlice bits 36 41
  let ts_neg2 ← bpIndex bits 41
  let ts_coarse2 ← bpSlice bits 42 56
  let ts_fine2 ← bpSlice bits 56 59
  let ts_tdc2 ← bpSlice bits 59 64
  let ts_dec1 := compose_ts ts_coarse1 ts_fine1
  let ts_dec2_raw := compose_ts ts_coarse2 ts_fine2
  -- `if self.ts_dec2 < self.ts_dec1: self.ts_dec2 += self.CLOCK_ROLLOVER`
  let ts_dec2 := if ts_dec2_raw < ts_dec1 then ts_dec2_raw + CLOCK_ROLLOVER else ts_dec2_raw
  -- `self.tot_us = (self.ts_dec2 - self.ts_dec1) / self.CLOCK_CYCLES_PER_US`
  let tot_us : ℚ := ((ts_dec2 : ℚ) - (ts_dec1 : ℚ)) / 20
  .ok { raw := data, chip_id, payload, row, column, ts_neg1, ts_coarse1, ts_fine1, ts_tdc1,
        ts_neg2, ts_coarse2, ts_fine2, ts_tdc2, ts_dec1, ts_dec2, tot_us,
        readout_id, timestamp, decoding_order }

/-- Shorthand for the value of the layout slice `[a:b]` of a hit's bits. -/
def sliceVal (data : List Nat) (a b : Nat) : Nat :=
  bitsVal (((dataBits data).drop a).take (b - a))

/-- Shorthand for the value of a single layout bit. -/
def bitVal (data : List Nat) (i : Nat) : Nat :=
  cond ((dataBits data).getD i false) 1 0

/-- First decoded timestamp of an 8-byte hit, in clock cycles. -/
def hitTsDec1 (data : List Nat) : Nat :=
  compose_ts (sliceVal data 19 33) (sliceVal data 33 36)

/-- Raw (pre-rollover) second decoded timestamp of an 8-byte hit. -/
def hitTsDec2Raw (data : List Nat) : Nat :=
  compose_ts (sliceVal data 42 56) (sliceVal data 56 59)

/-- Second decoded timestamp after the rollover correction. -/
def hitTsDec2 (data : List Nat) : Nat :=
  if hitTsDec2Raw data < hitTsDec1 data then hitTsDec2Raw data + CLOCK_ROLLOVER
  else hitTsDec2Raw data

/-- On an 8-byte payload the constructor succeeds and yields the explicit
field values dictated by `_LAYOUT`. -/
theorem mkAstroPix4Hit_eq (data : List Nat) (rid ts dord : Nat) (h8 : data.length = 8) :
    mkAstroPix4Hit data rid ts dord =
      .ok { raw := data
            chip_id := sliceVal data 0 5
            payload := sliceVal data 5 8
            row := sliceVal data 8 13
            column := sliceVal data 13 18
            ts_neg1 := bitVal data 18
            ts_coarse1 := sliceVal data 19 33
            ts_fine1 := sliceVal data 33 36
            ts_tdc1 := sliceVal data 36 41
            ts_neg2 := bitVal data 41
            ts_coarse2 := sliceVal data 42 56
            ts_fine2 := sliceVal data 56 59
            ts_tdc2 := sliceVal data 59 64
            ts_dec1 := hitTsDec1 data
            ts_dec2 := hitTsDec2 data
            tot_us := ((hitTsDec2 data : ℚ) - (hitTsDec1 data : ℚ)) / 20
            readout_id := rid
            timestamp := ts
            decoding_order := dord } := by
  have hlen : (dataBits data).length = 64 := by rw [dataBits_length, h8]
  unfold mkAstroPix4Hit
  simp only [bpSlice_ok (dataBits data) 0 5 (by norm_num) (by omega),
    bpSlice_ok (dataBits data) 5 8 (by norm_num) (by omega),
    bpSlice_ok (dataBits data) 8 13 (by norm_num) (by omega),
    bpSlice_ok (dataBits data) 13 18 (by norm_num) (by omega),
    bpSlice_ok (dataBits data) 19 33 (by norm_num) (by omega),
    bpSlice_ok (dataBits data) 33 36 (by norm_num) (by omega),
    bpSlice_ok (dataBits data) 36 41 (by norm_num) (by omega),
    bpSlice_ok (dataBits data) 42 56 (by norm_num) (by omega),
    bpSlice_ok (dataBits data) 56 59 (by norm_num) (by omega),
    bpSlice_ok (dataBits data) 59 64 (by norm_num) (by omega),
    bpIndex_ok (dataBits data) 18 (by omega), bpIndex_ok (dataBits data) 41 (by omega)]
  rfl

/-- Claim C3: for every 8-byte v4 hit, each decoded timestamp `ts_decN` equals
`gray_to_decimal((ts_coarseN << 3) + ts_fineN)`; if the raw `ts_dec2` is
smaller than `ts_dec1` then exactly `2^17` is added to `ts_dec2`; and
`tot_us` equals `(ts_dec2 - ts_dec1) / 20` after that correction. -/
theorem astropix4hit_timestamps (data : List Nat) (rid ts dord : Nat)
    (hit : AstroPix4Hit) (h8 : data.length = 8)
    (hok : mkAstroPix4Hit data rid ts dord = .ok hit) :
    hit.ts_dec1 = gray_to_decimal ((hit.ts_coarse1 <<< 3) + hit.ts_fine1)
    ∧ hit.ts_dec2 =
        (if gray_to_decimal ((hit.ts_coarse2 <<< 3) + hit.ts_fine2) < hit.ts_dec1 then
          gray_to_decimal ((hit.ts_coarse2 <<< 3) + hit.ts_fine2) + 2 ^ 17
        else gray_to_decimal ((hit.ts_coarse2 <<< 3) + hit.ts_fine2))
    ∧ hit.tot_us = ((hit.ts_dec2 : ℚ) - (hit.ts_dec1 : ℚ)) / 20 := by
  rw [mkAstroPix4Hit_eq data rid ts dord h8] at hok
  obtain rfl : hit = _ := by injection hok with h; exact h.symm
  refine ⟨rfl, ?_, ?_⟩ <;>
    simp [hitTsDec1, hitTsDec2, hitTsDec2Raw, compose_ts, CLOCK_ROLLOVER]

/-- Witness for `astropix4hit_timestamps` at the concrete 8-byte payload
`e0 80 56 e8 0d a8 54 03`. -/
theorem astropix4hit_timestamps_witness :
    ∃ hit : AstroPix4Hit,
      mkAstroPix4Hit [0xe0, 0x80, 0x56, 0xe8, 0x0d, 0xa8, 0x54, 0x03] 1 2 0 = .ok hit
      ∧ (hit.ts_dec1 = gray_to_decimal ((hit.ts_coarse1 <<< 3) + hit.ts_fine1)
        ∧ hit.ts_dec2 =
            (if gray_to_decimal ((hit.ts_coarse2 <<< 3) + hit.ts_fine2) < hit.ts_dec1 then
              gray_to_decimal ((hit.ts_coarse2 <<< 3) + hit.ts_fine2) + 2 ^ 17
            else gray_to_decimal ((hit.ts_coarse2 <<< 3) + hit.ts_fine2))
        ∧ hit.tot_us = ((hit.ts_dec2 : ℚ) - (hit.ts_dec1 : ℚ)) / 20) := by
  cases hok : mkAstroPix4Hit [0xe0, 0x80, 0x56, 0xe8, 0x0d, 0xa8, 0x54, 0x03] 1 2 0 with
  | error e =>
    rw [mkAstroPix4Hit_eq [0xe0, 0x80, 0x56, 0xe8, 0x0d, 0xa8, 0x54, 0x03] 1 2 0 rfl] at hok
    exact absurd hok (by simp)
  | ok hit =>
    exact ⟨hit, rfl,
      astropix4hit_timestamps [0xe0, 0x80, 0x56, 0xe8, 0x0d, 0xa8, 0x54, 0x03] 1 2 0 hit rfl hok⟩

/-- The coarse+fine Gray word of either timestamp group of an 8-byte hit is
below `2^17` (14 coarse bits and 3 fine bits). -/
theorem compose_ts_lt (data : List Nat) (a b : Nat) (h8 : data.length = 8)
    (_hb : b + 3 ≤ 64) (hlen : b - a = 14) :
    compose_ts (sliceVal data a b) (sliceVal data b (b + 3)) < 2 ^ 17 := by
  have hbits : (dataBits data).length = 64 := by rw [dataBits_length, h8]
  have hc : sliceVal data a b < 2 ^ 14 := by
    have := bitsVal_lt (((dataBits data).drop a).take (b - a))
    have hle : (((dataBits data).drop a).take (b - a)).length ≤ 14 := by
      simp only [List.length_take, List.length_drop]
      omega
    calc sliceVal data a b < 2 ^ (((dataBits data).drop a).take (b - a)).length := this
      _ ≤ 2 ^ 14 := Nat.pow_le_pow_right (by norm_num) hle
  have hf : sliceVal data b (b + 3) < 2 ^ 3 := by
    have := bitsVal_lt (((dataBits data).drop b).take (b + 3 - b))
    have hle : (((dataBits data).drop b).take (b + 3 - b)).length ≤ 3 := by
      simp only [List.length_take, List.length_drop]
      omega
    calc sliceVal data b (b + 3) < 2 ^ (((dataBits data).drop b).take (b + 3 - b)).length := this
      _ ≤ 2 ^ 3 := Nat.pow_le_pow_right (by norm_num) hle
  apply gray_to_decimal_lt
  have hsh : sliceVal data a b <<< 3 = sliceVal data a b * 8 := by
    simp [Nat.shiftLeft_eq]
  rw [hsh]
  norm_num at hc hf ⊢
  omega

/-- Claim C10: for every `AstroPix4Hit` constructed from an 8-byte payload,
after the rollover correction the decoded timestamps satisfy
`ts_dec2 >= ts_dec1` and `tot_us` is non-negative; the first decoded Gray
counter is strictly below `2^17`, which is why adding `2^17` always restores
the ordering. -/
theorem astropix4hit_tot_nonneg (data : List Nat) (rid ts dord : Nat)
    (hit : AstroPix4Hit) (h8 : data.length = 8)
    (hok : mkAstroPix4Hit data rid ts dord = .ok hit) :
    hit.ts_dec1 ≤ hit.ts_dec2 ∧ hit.ts_dec1 < 2 ^ 17 ∧ 0 ≤ hit.tot_us := by
  rw [mkAstroPix4Hit_eq data rid ts dord h8] at hok
  obtain rfl : hit = _ := by injection hok with h; exact h.symm
  have h1 : hitTsDec1 data < 2 ^ 17 := by
    have := compose_ts_lt data 19 33 h8 (by norm_num) (by norm_num)
    simpa [hitTsDec1] using this
  have hle : hitTsDec1 data ≤ hitTsDec2 data := by
    have h1' : hitTsDec1 data < 131072 := by
      have : (2 : ℕ) ^ 17 = 131072 := by norm_num
      omega
    have hro : CLOCK_ROLLOVER = 131072 := by norm_num [CLOCK_ROLLOVER]
    unfold hitTsDec2
    rw [hro]
    split <;> omega
  refine ⟨hle, h1, ?_⟩
  have hcast : ((hitTsDec1 data : ℚ)) ≤ ((hitTsDec2 data : ℚ)) := by exact_mod_cast hle
  have h20 : (0 : ℚ) < 20 := by norm_num
  apply div_nonneg _ (le_of_lt h20)
  linarith

/-- Witness for `astropix4hit_tot_nonneg` at the concrete 8-byte payload
`e0 80 d2 6f 04 ca 30 05`. -/
theorem astropix4hit_tot_nonneg_witness :
    ∃ hit : AstroPix4Hit,
      mkAstroPix4Hit [0xe0, 0x80, 0xd2, 0x6f, 0x04, 0xca, 0x30, 0x05] 1 2 0 = .ok hit
      ∧ (hit.ts_dec1 ≤ hit.ts_dec2 ∧ hit.ts_dec1 < 2 ^ 17 ∧ 0 ≤ hit.tot_us) := by
  cases hok : mkAstroPix4Hit [0xe0, 0x80, 0xd2, 0x6f, 0x04, 0xca, 0x30, 0x05] 1 2 0 with
  | error e =>
    rw [mkAstroPix4Hit_eq [0xe0, 0x80, 0xd2, 0x6f, 0x04, 0xca, 0x30, 0x05] 1 2 0 rfl] at hok
    exact absurd hok (by simp)
  | ok hit =>
    exact ⟨hit, rfl,
      astropix4hit_tot_nonneg [0xe0, 0x80, 0xd2, 0x6f, 0x04, 0xca, 0x30, 0x05] 1 2 0 hit rfl hok⟩

/-! ## `fmt.py`: `AstroPix4Readout` and its decode state machine

The readout object is modelled as a record of the mutable instance state the
Python object carries (`_readout_data`, `readout_id`, `timestamp`,
`_decoded`, the `DecodingStatus._status_code` bit mask, `_extra_bytes`,
`_byte_mask`, `_hits`), and the `decode()` method as a function from a
readout state and the optional `extra_bytes` argument to
`Except String (state × hit list)`: Python mutates `self` and returns
`self._hits`; an uncaught exception is `Except.error`.

Byte-type codes (`ByteType`): `NOT_ASSIGNED = 0`, `PADDING = 1`, `IDLE = 2`,
`HIT_START = 3`, `HIT = 4`, `EXTRA = 5`, `ORPHAN = 6`, `DROPPED = 7`.
Decoding-status bits (`Decoding`): `ORPHAN_BYTES_MATCHED = 0`,
`ORPHAN_BYTES_DROPPED = 1`, `ORPHAN_BYTES_NOT_USED = 2`,
`VALID_EXTRA_BYTES = 3`, `INVALID_EXTRA_BYTES = 4`,
`INCOMPLETE_DATA_DROPPED = 5`, `FATAL_ERROR = 6`. -/

/-- `AbstractAstroPixReadout.IDLE_BYTE` (`0xbc`). -/
def IDLE_BYTE : Nat := 0xbc

/-- `AbstractAstroPixReadout.PADDING_BYTE` (`0xff`). -/
def PADDING_BYTE : Nat := 0xff

/-- `AstroPix4Readout.HIT_CLASS._SIZE` (8 bytes per hit). -/
def HIT_SIZE : Nat := 8

/-- The state of an `AstroPix4Readout` object. -/
structure AstroPix4Readout where
  readout_data : List Nat
  readout_id : Nat
  timestamp : Nat
  decoded : Bool
  status_code : Nat
  extra_bytes : Option (List Nat)
  byte_mask : List Nat
  hits : List AstroPix4Hit
deriving Repr, DecidableEq

/-- `bytes.rstrip(b)` for a single strip byte. -/
def rstripByte (b : Nat) (data : List Nat) : List Nat :=
  (data.reverse.dropWhile (fun x => x = b)).reverse

/-- `AbstractAstroPixReadout.__init__`: strip the trailing padding bytes and
initialize the decoding state. -/
def mkAstroPix4Readout (data : List Nat) (readout_id timestamp : Nat) : AstroPix4Readout :=
  let rd := rstripByte PADDING_BYTE data
  { readout_data := rd, readout_id, timestamp, decoded := false, status_code := 0,
    extra_bytes := none, byte_mask := List.replicate rd.length 0, hits := [] }

/-- The one-byte slice `data[i:i+1]` of a `bytes` object. -/
def slice1 (data : List Nat) (i : Nat) : List Nat := (data.drop i).take 1

/-- `AstroPix4Readout.is_valid_start_byte(byte)` (fmt.py, lines 738-757):
`byte != PADDING_BYTE and ord(byte) >> 5 == 7` on a `bytes` argument.
`ord()` raises a `TypeError` unless its argument holds exactly one byte
(Python short-circuits, so the padding byte itself is simply rejected). -/
def is_valid_start_byte (byte : List Nat) : Except String Bool :=
  if byte = [PADDING_BYTE] then .ok false
  else
    match byte with
    | [b] => .ok (decide (b >>> 5 = 7))
    | _ => .error "TypeError: ord() expected a character"

/-- `DecodingStatus.set(bit)`: `self._status_code |= (1 << bit)`. -/
def setBit (status bit : Nat) : Nat := status ||| (1 <<< bit)

/-- NumPy slice assignment `mask[a:b] = v` (out-of-range indices clamp). -/
def setRange (mask : List Nat) (a b v : Nat) : List Nat :=
  mask.mapIdx (fun i x => if a ≤ i ∧ i < b then v else x)

/-- The idle/padding-skipping loop
`while readout_data[cursor:cursor+1] in [IDLE_BYTE, PADDING_BYTE]:
mask[cursor] = IDLE; cursor += 1`.  The fuel bounds the iteration count; the
loop advances by one byte per iteration, so `data.length + 1` is always
enough. -/
def skipIdlePad : Nat → List Nat → List Nat → Nat → List Nat × Nat
  | 0, _, mask, cursor => (mask, cursor)
  | fuel + 1, data, mask, cursor =>
    match data[cursor]? with
    | some b =>
      if b = IDLE_BYTE ∨ b = PADDING_BYTE then
        skipIdlePad fuel data (mask.set cursor 2) (cursor + 1)
      else (mask, cursor)
    | none => (mask, cursor)

/-- The trailing idle-skipping loop
`while readout_data[cursor:cursor+1] == IDLE_BYTE: mask[cursor] = IDLE;
cursor += 1`. -/
def skipIdleMask : Nat → List Nat → List Nat → Nat → List Nat × Nat
  | 0, _, mask, cursor => (mask, cursor)
  | fuel + 1, data, mask, cursor =>
    match data[cursor]? with
    | some b =>
      if b = IDLE_BYTE then skipIdleMask fuel data (mask.set cursor 2) (cursor + 1)
      else (mask, cursor)
    | none => (mask, cursor)

/-- The forward-probe loop
`while readout_data[forward_cursor:forward_cursor+1] == IDLE_BYTE:
forward_cursor += 1` (no byte-mask update). -/
def probeIdle : Nat → List Nat → Nat → Nat
  | 0, _, cursor => cursor
  | fuel + 1, data, cursor =>
    match data[cursor]? with
    | some b => if b = IDLE_BYTE then probeIdle fuel data (cursor + 1) else cursor
    | none => cursor

/-- The orphan-byte scan
`offset = 1; while not is_valid_start_byte(readout_data[cursor+offset : cursor+offset+1]):
offset += 1`.  When the scan runs past the end of the data, the empty slice
makes `ord()` raise, which is how the Python loop terminates on data without
a further valid start byte. -/
def findNextStart : Nat → List Nat → Nat → Nat → Except String Nat
  | 0, _, _, _ => .error "start-byte scan fuel exhausted (unreachable)"
  | fuel + 1, data, cursor, offset =>
    match is_valid_start_byte (slice1 data (cursor + offset)) with
    | .error e => .error e
    | .ok true => .ok offset
    | .ok false => findNextStart fuel data cursor (offset + 1)

/-- `AbstractAstroPixReadout._add_hit(hit_data)` with the default
`reverse=True`: reverse the bit order, build the hit with
`decoding_order = len(self._hits)` and append it. -/
def add_hit (r : AstroPix4Readout) (hit_data : List Nat) : Except String AstroPix4Readout :=
  match mkAstroPix4Hit (reverse_bit_order hit_data) r.readout_id r.timestamp r.hits.length with
  | .error e => .error e
  | .ok hit => .ok { r with hits := r.hits ++ [hit] }

/-- The `for offset in range(1, len(data))` scan of `decode` that looks for
coincidental start bytes inside a tentative 8-byte hit window (fmt.py,
lines 876-900).  The offsets list is computed once at loop entry, exactly as
Python evaluates `range(1, len(data))` once; `cursor` and `data` may be
reassigned by an iteration that drops an incomplete hit. -/
def innerScan (rd : List Nat) :
    List Nat → Nat → List Nat → List Nat → Nat →
    Except String (Nat × List Nat × List Nat × Nat)
  | [], cursor, data, mask, status => .ok (cursor, data, mask, status)
  | offset :: rest, cursor, data, mask, status =>
    match is_valid_start_byte (slice1 data offset) with
    | .error e => .error e
    | .ok false => innerScan rd rest cursor data mask status
    | .ok true =>
      let fc := probeIdle (rd.length + 1) rd (cursor + HIT_SIZE)
      if fc < rd.length then
        match is_valid_start_byte (slice1 rd fc) with
        | .error e => .error e
        | .ok true => innerScan rd rest cursor data mask status
        | .ok false =>
          -- a genuinely truncated hit: drop it and resume at the inner start byte
          let status' := setBit status 5
          let mask' := setRange mask cursor (cursor + offset) 7
          let cursor' := cursor + offset
          let data' := (rd.drop cursor').take HIT_SIZE
          innerScan rd rest cursor' data' mask' status'
      else innerScan rd rest cursor data mask status

/-- The main `while cursor < len(self._readout_data)` loop of
`AstroPix4Readout.decode` (fmt.py, lines 829-910).  Every iteration that
recurses advances the cursor by at least the hit size, so fuel
`readout_data.length + 1` is always enough. -/
def mainLoop : Nat → AstroPix4Readout → Nat → Except String (AstroPix4Readout × List AstroPix4Hit)
  | 0, _, _ => .error "decode loop fuel exhausted (unreachable)"
  | fuel + 1, r, cursor =>
    if cursor < r.readout_data.length then
      let s := skipIdlePad (r.readout_data.length + 1) r.readout_data r.byte_mask cursor
      let mask1 := s.1
      let c1 := s.2
      let r1 : AstroPix4Readout := { r with byte_mask := mask1 }
      if c1 = r1.readout_data.length then .ok (r1, r1.hits)
      else if c1 + HIT_SIZE ≥ r1.readout_data.length then
        -- truncated trailing hit data
        let data := r1.readout_data.drop c1
        let mask2 := setRange mask1 c1 r1.readout_data.length 5
        match is_valid_start_byte (slice1 data 0) with
        | .error e => .error e
        | .ok true =>
          let mask3 := mask2.set c1 3
          let r2 : AstroPix4Readout :=
            { r1 with
              byte_mask := mask3
              extra_bytes := some data
              status_code := setBit r1.status_code 3 }
          .ok (r2, r2.hits)
        | .ok false =>
          let r2 : AstroPix4Readout :=
            { r1 with
              byte_mask := mask2
              status_code := setBit r1.status_code 4 }
          .ok (r2, r2.hits)
      else
        match is_valid_start_byte (slice1 r1.readout_data c1) with
        | .error e => .error e
        | .ok false =>
          let r2 : AstroPix4Readout := { r1 with status_code := setBit r1.status_code 6 }
          .ok (r2, r2.hits)
        | .ok true =>
          let data := (r1.readout_data.drop c1).take HIT_SIZE
          match innerScan r1.readout_data (List.range' 1 (data.length - 1)) c1 data mask1
              r1.status_code with
          | .error e => .error e
          | .ok (c2, data2, mask2, st2) =>
            match add_hit { r1 with byte_mask := mask2, status_code := st2 } data2 with
            | .error e => .error e
            | .ok r3 =>
              let mask4 := setRange r3.byte_mask c2 (c2 + 1) 3
              let mask5 := setRange mask4 (c2 + 1) (c2 + HIT_SIZE) 4
              let s2 := skipIdleMask (r3.readout_data.length + 1) r3.readout_data mask5
                          (c2 + HIT_SIZE)
              mainLoop fuel { r3 with byte_mask := s2.1 } s2.2
    else .ok (r, r.hits)

/-- `AstroPix4Readout.decode(extra_bytes)` (fmt.py, lines 765-910). -/
def decode (r : AstroPix4Readout) (extra_bytes : Option (List Nat)) :
    Except String (AstroPix4Readout × List AstroPix4Hit) :=
  -- memoization: `if self._decoded: return self._hits`
  if r.decoded then .ok (r, r.hits)
  else
    let r0 : AstroPix4Readout := { r with decoded := true }
    let s := skipIdlePad (r0.readout_data.length + 1) r0.readout_data r0.byte_mask 0
    let r1 : AstroPix4Readout := { r0 with byte_mask := s.1 }
    let c1 := s.2
    match is_valid_start_byte (slice1 r1.readout_data c1) with
    | .error e => .error e
    | .ok true => mainLoop (r1.readout_data.length + 1) r1 c1
    | .ok false =>
      match findNextStart (r1.readout_data.length + 1) r1.readout_data c1 1 with
      | .error e => .error e
      | .ok offset =>
        let mask2 := setRange r1.byte_mask c1 (c1 + offset) 2
        let orphan := rstripByte IDLE_BYTE ((r1.readout_data.drop c1).take offset)
        let mask3 := setRange mask2 c1 (c1 + orphan.length) 6
        let r2 : AstroPix4Readout := { r1 with byte_mask := mask3 }
        match extra_bytes with
        | some eb =>
          if (eb ++ orphan).length = HIT_SIZE then
            match add_hit r2 (eb ++ orphan) with
            | .error e => .error e
            | .ok r3 =>
              let r4 : AstroPix4Readout := { r3 with status_code := setBit r3.status_code 0 }
              mainLoop (r4.readout_data.length + 1) r4 (c1 + offset)
          else
            let r3 : AstroPix4Readout := { r2 with status_code := setBit r2.status_code 1 }
            mainLoop (r3.readout_data.length + 1) r3 (c1 + offset)
        | none =>
          let r3 : AstroPix4Readout := { r2 with status_code := setBit r2.status_code 2 }
          mainLoop (r3.readout_data.length + 1) r3 (c1 + offset)

theorem add_hit_ok (r : AstroPix4Readout) (d : List Nat) (r' : AstroPix4Readout)
    (h : add_hit r d = .ok r') :
    r'.decoded = r.decoded ∧ r'.hits.length = r.hits.length + 1 := by
  unfold add_hit at h
  split at h
  · exact absurd h (by simp)
  · injection h with h
    subst h
    simp

/-- Any successful result of the decode main loop returns exactly the hit
list stored in the returned state, and never touches the decoded flag. -/
theorem mainLoop_ok : ∀ fuel (r : AstroPix4Readout) (cursor : Nat)
    (r' : AstroPix4Readout) (h : List AstroPix4Hit),
    mainLoop fuel r cursor = .ok (r', h) → h = r'.hits ∧ r'.decoded = r.decoded := by
  intro fuel
  induction fuel with
  | zero =>
    intro r cursor r' h hml
    exact absurd hml (by simp [mainLoop])
  | succ fuel ih =>
    intro r cursor r' h hml
    unfold mainLoop at hml
    dsimp only at hml
    split at hml
    · -- cursor < length
      split at hml
      · -- cursor reached the end after skipping idle bytes
        injection hml with hml
        injection hml with h1 h2
        subst h1; subst h2
        exact ⟨rfl, rfl⟩
      · split at hml
        · -- truncated trailing hit data
          split at hml
          · exact absurd hml (by simp)
          · injection hml with hml
            injection hml with h1 h2
            subst h1; subst h2
            exact ⟨rfl, rfl⟩
          · injection hml with hml
            injection hml with h1 h2
            subst h1; subst h2
            exact ⟨rfl, rfl⟩
        · -- regular hit window
          split at hml
          · exact absurd hml (by simp)
          · injection hml with hml
            injection hml with h1 h2
            subst h1; subst h2
            exact ⟨rfl, rfl⟩
          · split at hml
            · exact absurd hml (by simp)
            · split at hml
              · exact absurd hml (by simp)
              · next r3 hadd =>
                obtain ⟨hml1, hml2⟩ := ih _ _ _ _ hml
                refine ⟨hml1, ?_⟩
                rw [hml2]
                have := (add_hit_ok _ _ _ hadd).1
                simp only [this]
    · injection hml with hml
      injection hml with h1 h2
      subst h1; subst h2
      exact ⟨rfl, rfl⟩

/-- Any successful `decode` call returns exactly the hit list stored in the
returned state, with the decoded flag set. -/
theorem decode_ok (r : AstroPix4Readout) (eb : Option (List Nat))
    (r' : AstroPix4Readout) (h : List AstroPix4Hit)
    (hok : decode r eb = .ok (r', h)) : h = r'.hits ∧ r'.decoded = true := by
  unfold decode at hok
  split at hok
  · -- already decoded
    next hd =>
      injection hok with hok
      injection hok with h1 h2
      subst h1; subst h2
      exact ⟨rfl, hd⟩
  · -- fresh decode
    dsimp only at hok
    split at hok
    · exact absurd hok (by simp)
    · obtain ⟨h1, h2⟩ := mainLoop_ok _ _ _ _ _ hok
      exact ⟨h1, h2⟩
    · split at hok
      · exact absurd hok (by simp)
      · split at hok
        · -- caller supplied extra bytes
          split at hok
          · split at hok
            · exact absurd hok (by simp)
            · next r3 hadd =>
              obtain ⟨h1, h2⟩ := mainLoop_ok _ _ _ _ _ hok
              refine ⟨h1, ?_⟩
              rw [h2]
              have := (add_hit_ok _ _ _ hadd).1
              simp only [this]
          · obtain ⟨h1, h2⟩ := mainLoop_ok _ _ _ _ _ hok
            exact ⟨h1, h2⟩
        · obtain ⟨h1, h2⟩ := mainLoop_ok _ _ _ _ _ hok
          exact ⟨h1, h2⟩

/-- Claim C4: decoding is memoized: if a call to `decode` succeeds with state
`r'` and hit list `h`, then the decoded flag of `r'` is set, `h` is exactly
the hit list stored on the readout, and any further `decode` call (with any
`extra_bytes` argument) returns the previously computed hit list and leaves
the state — including the decoded flag and the decoding status — unchanged,
without re-running the decoding algorithm. -/
theorem decode_memoized (r : AstroPix4Readout) (eb : Option (List Nat))
    (r' : AstroPix4Readout) (h : List AstroPix4Hit) (eb' : Option (List Nat))
    (hok : decode r eb = .ok (r', h)) :
    r'.decoded = true ∧ h = r'.hits ∧ decode r' eb' = .ok (r', h) := by
  obtain ⟨h1, h2⟩ := decode_ok r eb r' h hok
  refine ⟨h2, h1, ?_⟩
  unfold decode
  rw [if_pos h2, h1]

/-- Witness for `decode_memoized`: the two-byte readout `e0 bc` (a valid
start byte followed by an idle byte) decodes to no hits with the
`VALID_EXTRA_BYTES` status bit set, and decoding again returns the same
state and hit list. -/
theorem decode_memoized_witness :
    decode { readout_data := [0xe0, 0xbc], readout_id := 7, timestamp := 5, decoded := true,
             status_code := 8, extra_bytes := some [0xe0, 0xbc], byte_mask := [3, 5],
             hits := [] } none
      = .ok ({ readout_data := [0xe0, 0xbc], readout_id := 7, timestamp := 5, decoded := true,
               status_code := 8, extra_bytes := some [0xe0, 0xbc], byte_mask := [3, 5],
               hits := [] }, []) :=
  (decode_memoized (mkAstroPix4Readout [0xe0, 0xbc] 7 5) none
    { readout_data := [0xe0, 0xbc], readout_id := 7, timestamp := 5, decoded := true,
      status_code := 8, extra_bytes := some [0xe0, 0xbc], byte_mask := [3, 5],
      hits := [] } [] none rfl).2.2

/-! ## C1: which bytes `is_valid_start_byte` accepts -/

/-- Claim C1, counterexample: the byte `0xE1` matches `111xxxxx` but differs
from `0xE0`, and `AstroPix4Readout.is_valid_start_byte` *accepts* it — the
decoder does not require the start byte to equal `0xE0` exactly, so the
claim is false. -/
theorem is_valid_start_byte_accepts_e1 : is_valid_start_byte [0xe1] = .ok true := rfl

/-- Claim C1, amended: `is_valid_start_byte` accepts a single byte `b` iff `b`
matches the `111xxxxx` pattern (`b >> 5 == 7`, i.e. `0xE0 ≤ b ≤ 0xFF`) and
`b` is not the padding byte `0xFF`; equivalently, iff `0xE0 ≤ b ≤ 0xFE`.  In
particular `0xE1` and `0xFE` are accepted, and only `0xFF` among the
`111xxxxx` bytes is rejected. -/
theorem is_valid_start_byte_iff (b : Nat) (hb : b < 256) :
    is_valid_start_byte [b] = .ok true ↔ (0xe0 ≤ b ∧ b ≤ 0xfe) := by
  unfold is_valid_start_byte
  have hshift : b >>> 5 = b / 32 := by
    simp [Nat.shiftRight_eq_div_pow]
  by_cases hpad : b = 0xff
  · subst hpad
    norm_num [PADDING_BYTE]
  · have hne : ¬ ([b] = [PADDING_BYTE]) := by
      simp only [List.cons.injEq, and_true]
      exact hpad
    rw [if_neg hne]
    constructor
    · intro hk
      injection hk with hk
      rw [decide_eq_true_iff] at hk
      rw [hshift] at hk
      omega
    · intro ⟨hlo, hhi⟩
      have : b >>> 5 = 7 := by
        rw [hshift]
        omega
      simp [this]

/-- Witness for `is_valid_start_byte_iff` at the concrete byte `0xE0`. -/
theorem is_valid_start_byte_iff_witness : is_valid_start_byte [0xe0] = .ok true :=
  (is_valid_start_byte_iff 0xe0 (by norm_num)).mpr (by norm_num)

/-! ## `fmt.py`: `AbstractAstroPixReadout.from_file` and
`AstroPixBinaryFile.__next__`

A binary file opened for reading is modelled as the list of its remaining
bytes.  `input_file.read(n)` returns up to `n` bytes (`take n`), and
`struct.unpack(fmt, buf)` raises `struct.error` unless `buf` has exactly
the size of the format. -/

/-- `AbstractAstroPixReadout._HEADER` (`0xfe 0xdc 0xba`). -/
def READOUT_HEADER : List Nat := [0xfe, 0xdc, 0xba]

/-- Value of a little-endian byte string. -/
def leDecode (bs : List Nat) : Nat := bs.foldr (fun b acc => b + 256 * acc) 0

/-- `struct.unpack` of a single unsigned little-endian field of `width`
bytes: raises `struct.error` unless the buffer holds exactly `width`
bytes. -/
def unpackLE (width : Nat) (bs : List Nat) : Except String Nat :=
  if bs.length = width then .ok (leDecode bs)
  else .error "struct.error: unpack requires a buffer of the right size"

/-- `AbstractAstroPixReadout.from_file` (fmt.py, lines 648-676), for the
`AstroPix4Readout` class: `none` models the `return None` at end of file,
`some (readout, rest)` a successfully read readout together with the
remaining file content. -/
def from_file (stream : List Nat) : Except String (Option (AstroPix4Readout × List Nat)) :=
  let hdr := stream.take 3
  if hdr.length = 0 then .ok none
  else if hdr ≠ READOUT_HEADER then .error "RuntimeError: invalid readout header"
  else
    let s1 := stream.drop 3
    match unpackLE 4 (s1.take 4) with
    | .error e => .error e
    | .ok readout_id =>
      let s2 := s1.drop 4
      match unpackLE 8 (s2.take 8) with
      | .error e => .error e
      | .ok timestamp =>
        let s3 := s2.drop 8
        match unpackLE 4 (s3.take 4) with
        | .error e => .error e
        | .ok len =>
          let s4 := s3.drop 4
          .ok (some (mkAstroPix4Readout (s4.take len) readout_id timestamp, s4.drop len))

/-- Result of `AstroPixBinaryFile.__next__` (fileio.py, lines 205-213). -/
inductive NextResult where
  | stopIteration
  | readout (r : AstroPix4Readout) (rest : List Nat)
  | fatal (e : String)
deriving Repr, DecidableEq

/-- `AstroPixBinaryFile.__next__`: read the next readout via `from_file`,
raising `StopIteration` when it returns `None`. -/
def nextReadout (stream : List Nat) : NextResult :=
  match from_file stream with
  | .ok none => .stopIteration
  | .ok (some (r, rest)) => .readout r rest
  | .error e => .fatal e

/-- Claim C6: when reading a readout record, obtaining zero bytes where the
3-byte marker `0xFE 0xDC 0xBA` is expected signals end of stream
(`from_file` returns `None` and `__next__` raises `StopIteration`), while
any non-empty byte sequence differing from the expected marker makes
`from_file` raise a fatal `RuntimeError`. -/
theorem from_file_marker (s : List Nat) (hne : s ≠ []) (hm : s.take 3 ≠ READOUT_HEADER) :
    (from_file [] = .ok none ∧ nextReadout [] = .stopIteration)
    ∧ from_file s = .error "RuntimeError: invalid readout header"
    ∧ nextReadout s = .fatal "RuntimeError: invalid readout header" := by
  refine ⟨⟨rfl, rfl⟩, ?_, ?_⟩
  · unfold from_file
    have hlen : ¬ (s.take 3).length = 0 := by
      rw [List.length_take]
      have : s.length ≠ 0 := fun h => hne (List.length_eq_zero.mp h)
      omega
    rw [if_neg hlen, if_pos hm]
  · unfold nextReadout from_file
    have hlen : ¬ (s.take 3).length = 0 := by
      rw [List.length_take]
      have : s.length ≠ 0 := fun h => hne (List.length_eq_zero.mp h)
      omega
    rw [if_neg hlen, if_pos hm]

/-- Witness for `from_file_marker` at the one-byte stream `[0x00]`. -/
theorem from_file_marker_witness :
    from_file [0x00] = .error "RuntimeError: invalid readout header"
    ∧ nextReadout [0x00] = .fatal "RuntimeError: invalid readout header" :=
  (from_file_marker [0x00] (by simp) (by simp [READOUT_HEADER])).2

/-! ## `hist.py`: `AbstractHistogram`

NumPy arrays of floats are modelled as a shape plus a flat list of `ℚ`
entries; the histogram operations the claims are about only ever combine
arrays of identical shape, so elementwise `zipWith`/`map` is the relevant
fragment of NumPy semantics.  `np.sqrt` has no exact counterpart on `ℚ`, so
the functions that apply it (`errors`, `__add__`, `__sub__`) take the
elementwise square-root function as an explicit parameter `sqrtFn`; every
theorem below holds for an arbitrary `sqrtFn`, so nothing depends on how the
square root is computed.  `InvalidShapeError` is an `Except.error` whose
message is built from the two shapes, as in `hist.py`. -/

/-- A NumPy array: a shape and its (flattened) entries. -/
structure NDArr where
  shape : List Nat
  data : List ℚ
deriving Repr, DecidableEq

/-- `np.zeros(shape)`. -/
def arrZeros (shape : List Nat) : NDArr := ⟨shape, List.replicate shape.prod 0⟩

/-- Elementwise sum of two same-shape arrays. -/
def arrAdd (a b : NDArr) : NDArr := ⟨a.shape, List.zipWith (· + ·) a.data b.data⟩

/-- Elementwise product of an array with a scalar. -/
def arrScale (k : ℚ) (a : NDArr) : NDArr := ⟨a.shape, a.data.map (· * k)⟩

/-- Elementwise application of a function (e.g. `np.sqrt` or squaring). -/
def arrMap (f : ℚ → ℚ) (a : NDArr) : NDArr := ⟨a.shape, a.data.map f⟩

/-- The state of an `AbstractHistogram` (hist.py, lines 37-224). -/
structure AbstractHistogram where
  bin_edges : List (List ℚ)
  axis_labels : List String
  shape : List Nat
  content : NDArr
  sumw2 : NDArr
deriving Repr, DecidableEq

/-- `AbstractHistogram.__init__(bin_edges, axis_labels)`. -/
def mkHistogram (bin_edges : List (List ℚ)) (axis_labels : List String) :
    Except String AbstractHistogram :=
  if ¬ axis_labels.length = bin_edges.length + 1 then
    .error "Length mismatch between bin edges and axis_labels"
  else
    let shape := bin_edges.map (fun edges => edges.length - 1)
    .ok { bin_edges, axis_labels, shape, content := arrZeros shape, sumw2 := arrZeros shape }

/-- `AbstractHistogram._check_array_shape(data)` (hist.py, lines 82-86),
exactly as written in the source: the comparison is
`if data.shape == self._shape: raise InvalidShapeError(...)` — it raises
when the shapes are *equal*. -/
def check_array_shape (h : AbstractHistogram) (data : NDArr) : Except String Unit :=
  if data.shape = h.shape then
    .error ("Invalid array shape: " ++ toString h.shape ++ " expected, got "
      ++ toString data.shape)
  else .ok ()

/-- `AbstractHistogram.set_errors(errors)`: check the shape, then store
`errors ** 2` as the sum of squared weights. -/
def set_errors (h : AbstractHistogram) (errors : NDArr) : Except String AbstractHistogram :=
  match check_array_shape h errors with
  | .error e => .error e
  | .ok _ => .ok { h with sumw2 := arrMap (fun q => q ^ 2) errors }

/-- `AbstractHistogram.set_content(content, errors)` (hist.py, lines
126-136): check the content shape, store the content, then store the errors
when given. -/
def set_content (h : AbstractHistogram) (content : NDArr) (errors : Option NDArr) :
    Except String AbstractHistogram :=
  match check_array_shape h content with
  | .error e => .error e
  | .ok _ =>
    let h1 := { h with content := content }
    match errors with
    | none => .ok h1
    | some e => set_errors h1 e

/-- `AbstractHistogram.errors()`: `np.sqrt(self._sumw2)`. -/
def histErrors (sqrtFn : ℚ → ℚ) (h : AbstractHistogram) : NDArr := arrMap sqrtFn h.sumw2

/-- `AbstractHistogram.empty_copy()`. -/
def empty_copy (h : AbstractHistogram) : Except String AbstractHistogram :=
  mkHistogram h.bin_edges h.axis_labels

/-- `AbstractHistogram.__add__` (hist.py, lines 185-190):
`hist = self.empty_copy();
hist.set_content(self._content + other._content, np.sqrt(self._sumw2 + other._sumw2))`. -/
def histAdd (sqrtFn : ℚ → ℚ) (a b : AbstractHistogram) : Except String AbstractHistogram :=
  match empty_copy a with
  | .error e => .error e
  | .ok hist =>
    set_content hist (arrAdd a.content b.content) (some (arrMap sqrtFn (arrAdd a.sumw2 b.sumw2)))

/-- `AbstractHistogram.__mul__` (hist.py, lines 199-204):
`hist = self.empty_copy();
hist.set_content(self._content * value, self.errors() * value)`. -/
def histMul (sqrtFn : ℚ → ℚ) (a : AbstractHistogram) (value : ℚ) :
    Except String AbstractHistogram :=
  match empty_copy a with
  | .error e => .error e
  | .ok hist =>
    set_content hist (arrScale value a.content) (some (arrScale value (histErrors sqrtFn a)))

/-- A histogram whose content and sum-of-squared-weights arrays have the
declared shape — the invariant established by the constructor and preserved
by `fill`. -/
def AbstractHistogram.wf (h : AbstractHistogram) : Prop :=
  h.content.shape = h.shape ∧ h.sumw2.shape = h.shape
  ∧ h.axis_labels.length = h.bin_edges.length + 1
  ∧ h.shape = h.bin_edges.map (fun edges => edges.length - 1)

/-- For any well-formed histograms `a`, `b` built with identical binning,
`a + b` (and likewise `a * k`) unconditionally raises `InvalidShapeError`,
because `_check_array_shape` raises when the new content's shape *equals*
the histogram's shape. -/
theorem histAdd_always_raises (sqrtFn : ℚ → ℚ) (a b : AbstractHistogram) (k : ℚ)
    (ha : a.wf) (_hb : b.wf) (_hbin : a.bin_edges = b.bin_edges) :
    (∃ msg, histAdd sqrtFn a b = .error msg) ∧ (∃ msg, histMul sqrtFn a k = .error msg) := by
  obtain ⟨hc, _hs, hl, hshape⟩ := ha
  have hmk : mkHistogram a.bin_edges a.axis_labels
      = .ok { bin_edges := a.bin_edges, axis_labels := a.axis_labels,
              shape := a.bin_edges.map (fun edges => edges.length - 1),
              content := arrZeros (a.bin_edges.map (fun edges => edges.length - 1)),
              sumw2 := arrZeros (a.bin_edges.map (fun edges => edges.length - 1)) } := by
    unfold mkHistogram
    rw [if_neg (by omega)]
  constructor
  · unfold histAdd empty_copy
    rw [hmk]
    unfold set_content check_array_shape
    dsimp only
    rw [if_pos (by simp [arrAdd, hc, hshape])]
    exact ⟨_, rfl⟩
  · unfold histMul empty_copy
    rw [hmk]
    unfold set_content check_array_shape
    dsimp only
    rw [if_pos (by simp [arrScale, hc, hshape])]
    exact ⟨_, rfl⟩

/-- Claim C2 (code bug): evaluating the histogram arithmetic at the simplest
failing input.  For two 1-bin histograms `a = b` built from the identical
bin edges `[0, 1]`, `a + b` raises `InvalidShapeError` instead of returning
the elementwise sum, and `a * 2` raises as well, because
`_check_array_shape` raises when `data.shape == self._shape` (the comparison
in the source is inverted).  The result does not depend on the square-root
function, here instantiated with the identity. -/
theorem histogram_arithmetic_raises :
    ((do
      let a ← mkHistogram [[0, 1]] ["x", "Entries/bin"]
      let b ← mkHistogram [[0, 1]] ["x", "Entries/bin"]
      histAdd (fun q => q) a b)
      = .error "Invalid array shape: [1] expected, got [1]")
    ∧ ((do
      let a ← mkHistogram [[0, 1]] ["x", "Entries/bin"]
      histMul (fun q => q) a 2)
      = .error "Invalid array shape: [1] expected, got [1]") := by
  exact ⟨rfl, rfl⟩

/-! ## `modeling.py`: `AbstractFitModel`, `Constant` and `Line`

`AbstractFitModel` declares `evaluate` as its only abstract method
(`@staticmethod @abstractmethod`, modeling.py lines 120-124).  Under
Python's `abc` machinery a subclass can be instantiated iff every inherited
abstract method is overridden by a concrete definition.  The method tables
below list the methods each concrete subclass defines in the source. -/

/-- The abstract methods of `AbstractFitModel`. -/
def AbstractFitModel_abstract_methods : List String := ["evaluate"]

/-- The methods the class `Constant` defines (modeling.py, lines 264-287). -/
def Constant_methods : List String := ["evaluate", "init_parameters"]

/-- The methods the class `Line` defines (modeling.py, lines 290-307): it
defines a static method named `value`, not `evaluate`. -/
def Line_methods : List String := ["value"]

/-- Python `abc`: a subclass of an ABC can be instantiated iff it overrides
every abstract method. -/
def instantiable (abstract_methods defined_methods : List String) : Bool :=
  abstract_methods.all (fun m => defined_methods.contains m)

/-- `Line.value(x, slope, intercept)` — the static method the source
defines in place of `evaluate`. -/
def Line_value (x slope intercept : ℚ) : ℚ := slope * x + intercept

/-! ## A model of `json.dumps` / `json.loads`

`fileio.FileHeader` serializes its metadata dictionary with `json.dumps`
and parses it back with `json.loads`.  The JSON-serializable values are
modelled by the type `JValue`: `None`, `bool`, `int`, `str`, `list` and
`dict` (floats are outside the model — a binary float's shortest
round-tripping decimal representation has no exact counterpart on `ℚ`).
Python strings are sequences of Unicode code points; `List Char` covers
exactly the Unicode scalar values (surrogates excluded).  Dictionaries are
insertion-ordered key/value sequences with unique keys; uniqueness is part
of the well-formedness predicate `wfVal` below, since a Lean association
list can repeat keys while a Python dict cannot.

`dumpsVal` follows `json.dumps` with its default options: separators
`', '` and `': '`, and `ensure_ascii=True` escaping (`\"`, `\\`, `\b`,
`\f`, `\n`, `\r`, `\t`, and `\uXXXX` — with surrogate pairs above
`0xFFFF` — for every other code point outside `0x20 .. 0x7E`).
`parseP` follows the `json.loads` scanner on the same fragment (numbers
are parsed as integers; a float literal fails to parse instead of
producing a float).  The parser carries explicit fuel and builds objects
by dictionary insertion, as the C scanner does. -/

mutual
inductive JValue where
  | null
  | bool (b : Bool)
  | int (n : Int)
  | str (s : List Char)
  | arr (elems : JArr)
  | obj (members : JObj)
inductive JArr where
  | nil
  | cons (hd : JValue) (tl : JArr)
inductive JObj where
  | nil
  | cons (key : List Char) (val : JValue) (tl : JObj)
end

/-- The keys of a JSON object, in order. -/
def JObj.keys : JObj → List (List Char)
  | .nil => []
  | .cons k _ tl => k :: tl.keys

/-- Concatenation of two JSON objects. -/
def JObj.append : JObj → JObj → JObj
  | .nil, o => o
  | .cons k v tl, o => .cons k v (tl.append o)

/-- Python dict insertion `d[k] = v`: replace in place when the key exists,
append otherwise. -/
def JObj.insert : JObj → List Char → JValue → JObj
  | .nil, k, v => .cons k v .nil
  | .cons k' v' tl, k, v =>
    if k' = k then .cons k' v tl else .cons k' v' (tl.insert k v)

/-- Lookup in a JSON object. -/
def JObj.lookup : JObj → List Char → Option JValue
  | .nil, _ => none
  | .cons k' v' tl, k => if k' = k then some v' else tl.lookup k

/-- `dict.pop(k)`: the object with the first binding of `k` removed. -/
def JObj.erase : JObj → List Char → JObj
  | .nil, _ => .nil
  | .cons k' v' tl, k => if k' = k then tl else .cons k' v' (tl.erase k)

mutual
/-- Well-formedness: every object (at any depth) has pairwise distinct
keys, which is automatic for values that come from Python dicts. -/
def wfVal : JValue → Prop
  | .null => True
  | .bool _ => True
  | .int _ => True
  | .str _ => True
  | .arr a => wfArr a
  | .obj o => wfObj o
def wfArr : JArr → Prop
  | .nil => True
  | .cons v tl => wfVal v ∧ wfArr tl
def wfObj : JObj → Prop
  | .nil => True
  | .cons k v tl => ¬ k ∈ tl.keys ∧ wfVal v ∧ wfObj tl
end

/-- Lowercase hexadecimal digit. -/
def hexDigitChar (n : Nat) : Char :=
  if n < 10 then Char.ofNat (48 + n) else Char.ofNat (87 + n)

/-- The four hex digits of `n < 0x10000` (`'\\u%04x' % n`). -/
def hex4 (n : Nat) : List Char :=
  [hexDigitChar (n / 4096 % 16), hexDigitChar (n / 256 % 16),
   hexDigitChar (n / 16 % 16), hexDigitChar (n % 16)]

/-- The `\uXXXX` escape of a code point, as a surrogate pair above
`0xFFFF`. -/
def uEsc (n : Nat) : List Char :=
  if n < 0x10000 then '\\' :: 'u' :: hex4 n
  else
    let m := n - 0x10000
    ('\\' :: 'u' :: hex4 (0xd800 + m / 1024)) ++ ('\\' :: 'u' :: hex4 (0xdc00 + m % 1024))

/-- `ensure_ascii` escaping of one character: the two-character escapes for
`"`, `\`, backspace, form feed, newline, carriage return and tab; any other
code point outside `0x20 .. 0x7E` as `\uXXXX`; printable ASCII as itself. -/
def escChar (c : Char) : List Char :=
  if c = '"' then ['\\', '"']
  else if c = '\\' then ['\\', '\\']
  else if c.toNat = 8 then ['\\', 'b']
  else if c.toNat = 12 then ['\\', 'f']
  else if c = '\n' then ['\\', 'n']
  else if c = '\r' then ['\\', 'r']
  else if c = '\t' then ['\\', 't']
  else if c.toNat < 0x20 ∨ 0x7e < c.toNat then uEsc c.toNat
  else [c]

/-- `ensure_ascii` escaping of a whole string. -/
def escString (s : List Char) : List Char := s.flatMap escChar

/-- The decimal digits of `n`, most significant first (empty for `0`); the
fuel argument only bounds the recursion and `fuel ≥ n` is always enough. -/
def natDigits : Nat → Nat → List Char
  | 0, _ => []
  | fuel + 1, n => if n = 0 then [] else natDigits fuel (n / 10) ++ [Char.ofNat (48 + n % 10)]

/-- `str(n)` for a non-negative integer. -/
def natStr (n : Nat) : List Char := if n = 0 then ['0'] else natDigits n n

/-- `str(n)` for an arbitrary integer. -/
def intStr (n : Int) : List Char :=
  if n < 0 then '-' :: natStr n.natAbs else natStr n.natAbs

mutual
/-- `json.dumps` with the default separators (`', '`, `': '`) and
`ensure_ascii=True`. -/
def dumpsVal : JValue → List Char
  | .null => "null".toList
  | .bool true => "true".toList
  | .bool false => "false".toList
  | .int n => intStr n
  | .str s => '"' :: escString s ++ ['"']
  | .arr .nil => "[]".toList
  | .arr (.cons v tl) => '[' :: (dumpsVal v ++ dumpsArrTail tl) ++ [']']
  | .obj .nil => "{}".toList
  | .obj (.cons k v tl) =>
    '{' :: (('"' :: escString k ++ '"' :: ':' :: ' ' :: dumpsVal v) ++ dumpsObjTail tl) ++ ['}']
/-- The remaining array items, each preceded by `', '`. -/
def dumpsArrTail : JArr → List Char
  | .nil => []
  | .cons v tl => ',' :: ' ' :: (dumpsVal v ++ dumpsArrTail tl)
/-- The remaining object members, each preceded by `', '`. -/
def dumpsObjTail : JObj → List Char
  | .nil => []
  | .cons k v tl =>
    ',' :: ' ' :: (('"' :: escString k ++ '"' :: ':' :: ' ' :: dumpsVal v) ++ dumpsObjTail tl)
end

/-- One `"key": value` member (the form inlined in `dumpsVal` and
`dumpsObjTail`). -/
def dumpsKV (k : List Char) (v : JValue) : List Char :=
  '"' :: escString k ++ '"' :: ':' :: ' ' :: dumpsVal v

mutual
/-- Fuel needed by the parser to read a printed value back. -/
def jfuelVal : JValue → Nat
  | .null => 1
  | .bool _ => 1
  | .int _ => 1
  | .str _ => 1
  | .arr a => 1 + jfuelArr a
  | .obj o => 1 + jfuelObj o
/-- Fuel needed by the element loop for the remaining elements. -/
def jfuelArr : JArr → Nat
  | .nil => 0
  | .cons v tl => 1 + jfuelVal v + jfuelArr tl
/-- Fuel needed by the member loop for the remaining members. -/
def jfuelObj : JObj → Nat
  | .nil => 0
  | .cons _ v tl => 1 + jfuelVal v + jfuelObj tl
end

/-- The JSON whitespace characters. -/
def isWsChar (c : Char) : Bool := c = ' ' ∨ c = '\t' ∨ c = '\n' ∨ c = '\r'

/-- Skip leading JSON whitespace. -/
def skipWs : List Char → List Char
  | [] => []
  | c :: rest => if isWsChar c then skipWs rest else c :: rest

/-- Value of a hexadecimal digit, either case (shared by the JSON `\uXXXX`
scanner and `bytes.fromhex`). -/
def hexDigitVal (c : Char) : Option Nat :=
  if 48 ≤ c.toNat ∧ c.toNat ≤ 57 then some (c.toNat - 48)
  else if 97 ≤ c.toNat ∧ c.toNat ≤ 102 then some (c.toNat - 87)
  else if 65 ≤ c.toNat ∧ c.toNat ≤ 70 then some (c.toNat - 55)
  else none

/-- Parse exactly four hex digits. -/
def parseHex4 : List Char → Option (Nat × List Char)
  | c1 :: c2 :: c3 :: c4 :: rest =>
    match hexDigitVal c1, hexDigitVal c2, hexDigitVal c3, hexDigitVal c4 with
    | some a, some b, some c, some d => some (4096 * a + 256 * b + 16 * c + d, rest)
    | _, _, _, _ => none
  | _ => none

/-- Split off the maximal leading run of decimal digits. -/
def takeDigits : List Char → List Char × List Char
  | [] => ([], [])
  | c :: rest =>
    if 48 ≤ c.toNat ∧ c.toNat ≤ 57 then
      let p := takeDigits rest
      (c :: p.1, p.2)
    else ([], c :: rest)

/-- Value of a run of decimal digits. -/
def digitsVal (ds : List Char) : Nat := ds.foldl (fun a c => 10 * a + (c.toNat - 48)) 0

/-- Parse an integer literal: an optional minus sign followed by at least
one digit.  (A following `.` or `e` would make `json.loads` produce a
float; in this float-free model the enclosing parser fails on it instead.) -/
def parseIntTok (input : List Char) : Option (Int × List Char) :=
  match input with
  | [] => none
  | c :: rest =>
    if c = '-' then
      let p := takeDigits rest
      if p.1.isEmpty then none else some (-(digitsVal p.1 : Int), p.2)
    else
      let p := takeDigits (c :: rest)
      if p.1.isEmpty then none else some ((digitsVal p.1 : Int), p.2)

/-- The character with code point `n`, when `n` is a Unicode scalar
value. -/
def charOfNatQ (n : Nat) : Option Char :=
  if _h : n.isValidChar then some (Char.ofNat n) else none

/-- Prepend a character to a string-parse result. -/
def consStr (c : Char) : Option (List Char × List Char) → Option (List Char × List Char)
  | some (s, r) => some (c :: s, r)
  | none => none

/-- The continuation after a high-surrogate escape: an immediately
following low-surrogate escape combines into one code point. -/
def surrCont (k : List Char → Option (List Char × List Char)) (h : Nat) :
    List Char → Option (List Char × List Char)
  | '\\' :: 'u' :: rest4 =>
    match parseHex4 rest4 with
    | none => none
    | some (l, rest5) =>
      if 0xdc00 ≤ l ∧ l < 0xe000 then
        match charOfNatQ (0x10000 + (h - 0xd800) * 1024 + (l - 0xdc00)) with
        | some ch => consStr ch (k rest5)
        | none => none
      else none
  | _ => none

def parseStrStep (k : List Char → Option (List Char × List Char)) :
    List Char → Option (List Char × List Char)
  | [] => none
  | c :: rest =>
    if c = '"' then some ([], rest)
    else if c = '\\' then
      match rest with
      | [] => none
      | e :: rest2 =>
        if e = '"' then consStr '"' (k rest2)
        else if e = '\\' then consStr '\\' (k rest2)
        else if e = '/' then consStr '/' (k rest2)
        else if e = 'b' then consStr (Char.ofNat 8) (k rest2)
        else if e = 'f' then consStr (Char.ofNat 12) (k rest2)
        else if e = 'n' then consStr '\n' (k rest2)
        else if e = 'r' then consStr '\r' (k rest2)
        else if e = 't' then consStr '\t' (k rest2)
        else if e = 'u' then
          match parseHex4 rest2 with
          | none => none
          | some (h, rest3) =>
            if 0xd800 ≤ h ∧ h < 0xdc00 then surrCont k h rest3
            else
              match charOfNatQ h with
              | some ch => consStr ch (k rest3)
              | none => none
        else none
    else if c.toNat < 0x20 then none
    else consStr c (k rest)

/-- The `json.loads` string scanner, positioned just after the opening
quote; strict mode, so a raw control character is rejected.  A `\uXXXX`
escape in the high-surrogate range combines with an immediately following
low-surrogate escape into one code point (a lone surrogate cannot be a
Lean `Char` and is rejected; `json.dumps` output never contains one). -/
def parseStrBody : Nat → List Char → Option (List Char × List Char)
  | 0, _ => none
  | fuel + 1, input => parseStrStep (parseStrBody fuel) input

/-- Parser mode: a value, the members of an object (accumulated so far), or
the elements of an array. -/
inductive PMode where
  | val
  | members (acc : JObj)
  | elems (acc : JArr)

/-- Append an element to an array. -/
def JArr.push : JArr → JValue → JArr
  | .nil, v => .cons v .nil
  | .cons h t, v => .cons h (t.push v)

/-- One value-mode step of the `json.loads` scanner on the float-free
fragment, with `q` the scanner itself for the recursive calls.  In
`members`/`elems` mode the scanner sits just after `{` and a possible
member separator (respectively just after `[` or `,`), with the
members/elements parsed so far accumulated dict-insertion style. -/
def parseValStep (q : PMode → List Char → Option (JValue × List Char))
    (input : List Char) : Option (JValue × List Char) :=
  match skipWs input with
  | [] => none
  | c :: rest =>
    if c = '{' then
      match skipWs rest with
      | c2 :: r => if c2 = '}' then some (.obj .nil, r) else q (.members .nil) rest
      | [] => q (.members .nil) rest
    else if c = '[' then
      match skipWs rest with
      | c2 :: r => if c2 = ']' then some (.arr .nil, r) else q (.elems .nil) rest
      | [] => q (.elems .nil) rest
    else if c = '"' then
      match parseStrBody (rest.length + 1) rest with
      | some (s, r) => some (.str s, r)
      | none => none
    else if c = 'n' then
      match rest with
      | c1 :: c2 :: c3 :: r =>
        if c1 = 'u' ∧ c2 = 'l' ∧ c3 = 'l' then some (.null, r) else none
      | _ => none
    else if c = 't' then
      match rest with
      | c1 :: c2 :: c3 :: r =>
        if c1 = 'r' ∧ c2 = 'u' ∧ c3 = 'e' then some (.bool true, r) else none
      | _ => none
    else if c = 'f' then
      match rest with
      | c1 :: c2 :: c3 :: c4 :: r =>
        if c1 = 'a' ∧ c2 = 'l' ∧ c3 = 's' ∧ c4 = 'e' then some (.bool false, r)
        else none
      | _ => none
    else
      match parseIntTok (c :: rest) with
      | some (n, r) => some (.int n, r)
      | none => none

def parseMembersStep (q : PMode → List Char → Option (JValue × List Char))
    (acc : JObj) (input : List Char) : Option (JValue × List Char) :=
  match skipWs input with
  | c0 :: rest =>
    if c0 = '"' then
      match parseStrBody (rest.length + 1) rest with
      | none => none
      | some (key, r1) =>
        match skipWs r1 with
        | c1 :: r2 =>
          if c1 = ':' then
            match q .val r2 with
            | none => none
            | some (v, r3) =>
              match skipWs r3 with
              | c2 :: r4 =>
                if c2 = ',' then q (.members (acc.insert key v)) r4
                else if c2 = '}' then some (.obj (acc.insert key v), r4)
                else none
              | [] => none
          else none
        | [] => none
    else none
  | [] => none

def parseElemsStep (q : PMode → List Char → Option (JValue × List Char))
    (acc : JArr) (input : List Char) : Option (JValue × List Char) :=
  match q .val input with
  | none => none
  | some (v, r1) =>
    match skipWs r1 with
    | c1 :: r2 =>
      if c1 = ',' then q (.elems (acc.push v)) r2
      else if c1 = ']' then some (.arr (acc.push v), r2)
      else none
    | [] => none

/-- Dispatch one scanner step by mode. -/
def parsePStep (q : PMode → List Char → Option (JValue × List Char)) :
    PMode → List Char → Option (JValue × List Char)
  | .val, input => parseValStep q input
  | .members acc, input => parseMembersStep q acc input
  | .elems acc, input => parseElemsStep q acc input

/-- Tie the scanner step to the fuel. -/
def parseP : Nat → PMode → List Char → Option (JValue × List Char)
  | 0, _, _ => none
  | fuel + 1, mode, input => parsePStep (parseP fuel) mode input

/-- `json.loads`: parse one value and insist nothing but whitespace
follows. -/
def jsonLoads (s : List Char) : Except String JValue :=
  match parseP (2 * s.length + 2) .val s with
  | some (v, rest) =>
    match skipWs rest with
    | [] => .ok v
    | _ => .error "json.decoder.JSONDecodeError: Extra data"
  | none => .error "json.decoder.JSONDecodeError: Expecting value"

/-! ### Round-trip lemmas: `jsonLoads` reads back what `dumpsVal` wrote -/

theorem toNat_charOfNat (n : Nat) (h : n.isValidChar) : (Char.ofNat n).toNat = n := by
  simp [Char.ofNat, h, Char.toNat, Char.ofNatAux, UInt32.toNat, BitVec.toNat_ofNatLt]

theorem charOfNatQ_toNat (c : Char) : charOfNatQ c.toNat = some c := by
  have hv : c.toNat.isValidChar := c.valid
  unfold charOfNatQ
  rw [dif_pos hv, Char.ofNat_toNat]

theorem skipWs_cons_not_ws (c : Char) (t : List Char) (h : isWsChar c = false) :
    skipWs (c :: t) = c :: t := by
  simp [skipWs, h]

theorem skipWs_ws_prefix (W X : List Char) (hW : ∀ c ∈ W, isWsChar c = true) :
    skipWs (W ++ X) = skipWs X := by
  induction W with
  | nil => simp
  | cons c W ih =>
    have hc : isWsChar c = true := hW c (by simp)
    simp only [List.cons_append, skipWs, hc, if_pos]
    exact ih (fun c hc => hW c (by simp [hc]))

/-- A list whose head (if any) is not a decimal digit; the maximal-digit-run
scanner stops in front of it. -/
def NotDigitHead : List Char → Prop
  | [] => True
  | c :: _ => ¬ (48 ≤ c.toNat ∧ c.toNat ≤ 57)

theorem takeDigits_append (ds rest : List Char)
    (hds : ∀ c ∈ ds, 48 ≤ c.toNat ∧ c.toNat ≤ 57) (hrest : NotDigitHead rest) :
    takeDigits (ds ++ rest) = (ds, rest) := by
  induction ds with
  | nil =>
    cases rest with
    | nil => rfl
    | cons c t =>
      simp only [NotDigitHead] at hrest
      simp [takeDigits, hrest]
  | cons c ds ih =>
    have hc := hds c (by simp)
    have ih' := ih (fun c hc => hds c (by simp [hc]))
    simp only [List.cons_append, takeDigits, if_pos hc, List.append_eq]
    rw [ih']

theorem digitsVal_append_singleton (xs : List Char) (c : Char) :
    digitsVal (xs ++ [c]) = 10 * digitsVal xs + (c.toNat - 48) := by
  simp [digitsVal, List.foldl_append]

theorem natDigits_spec : ∀ fuel n : Nat, n ≤ fuel →
    digitsVal (natDigits fuel n) = n
    ∧ (∀ c ∈ natDigits fuel n, 48 ≤ c.toNat ∧ c.toNat ≤ 57) := by
  intro fuel
  induction fuel with
  | zero =>
    intro n h
    interval_cases n
    exact ⟨rfl, by simp [natDigits]⟩
  | succ fuel ih =>
    intro n h
    rcases Nat.eq_zero_or_pos n with h0 | h0
    · subst h0
      exact ⟨rfl, by simp [natDigits]⟩
    · have hdiv : n / 10 ≤ fuel := by
        have : n / 10 < n := Nat.div_lt_self h0 (by norm_num)
        omega
      obtain ⟨ihv, ihd⟩ := ih (n / 10) hdiv
      have hmod : (Char.ofNat (48 + n % 10)).toNat = 48 + n % 10 := by
        apply toNat_charOfNat
        left
        omega
      constructor
      · rw [show natDigits (fuel + 1) n
              = natDigits fuel (n / 10) ++ [Char.ofNat (48 + n % 10)] by
            simp [natDigits, Nat.pos_iff_ne_zero.mp h0]]
        rw [digitsVal_append_singleton, ihv, hmod]
        omega
      · rw [show natDigits (fuel + 1) n
              = natDigits fuel (n / 10) ++ [Char.ofNat (48 + n % 10)] by
            simp [natDigits, Nat.pos_iff_ne_zero.mp h0]]
        intro c hc
        rcases List.mem_append.mp hc with hmem | hmem
        · exact ihd c hmem
        · simp only [List.mem_singleton] at hmem
          subst hmem
          rw [hmod]
          omega

theorem natStr_spec (n : Nat) :
    digitsVal (natStr n) = n ∧ natStr n ≠ []
    ∧ (∀ c ∈ natStr n, 48 ≤ c.toNat ∧ c.toNat ≤ 57) := by
  rcases Nat.eq_zero_or_pos n with h0 | h0
  · subst h0
    refine ⟨by decide, by decide, ?_⟩
    intro c hc
    simp [natStr] at hc
    subst hc
    decide
  · obtain ⟨hv, hd⟩ := natDigits_spec n n (le_refl n)
    have hne : natStr n = natDigits n n := by
      simp [natStr, Nat.pos_iff_ne_zero.mp h0]
    refine ⟨by rw [hne]; exact hv, ?_, by rw [hne]; exact hd⟩
    rw [hne]
    intro hnil
    rw [hnil] at hv
    simp [digitsVal] at hv
    omega

theorem parseIntTok_inv (n : Int) (rest : List Char) (hrest : NotDigitHead rest) :
    parseIntTok (intStr n ++ rest) = some (n, rest) := by
  obtain ⟨hv, hne, hd⟩ := natStr_spec n.natAbs
  have htake : takeDigits (natStr n.natAbs ++ rest) = (natStr n.natAbs, rest) :=
    takeDigits_append _ _ hd hrest
  have hemp : ¬ ((natStr n.natAbs).isEmpty = true) := by
    simp only [List.isEmpty_iff]
    exact hne
  by_cases hneg : n < 0
  · rw [show intStr n = '-' :: natStr n.natAbs by simp [intStr, hneg]]
    have step : parseIntTok (('-' :: natStr n.natAbs) ++ rest)
        = (if (takeDigits (natStr n.natAbs ++ rest)).1.isEmpty = true then none
           else some (-(digitsVal (takeDigits (natStr n.natAbs ++ rest)).1 : Int),
                      (takeDigits (natStr n.natAbs ++ rest)).2)) := rfl
    rw [step, htake]
    rw [if_neg hemp, hv]
    have : -((n.natAbs : Nat) : Int) = n := by omega
    rw [this]
  · rw [show intStr n = natStr n.natAbs by simp [intStr, hneg]]
    obtain ⟨c, t, hct⟩ : ∃ c t, natStr n.natAbs = c :: t := by
      cases hcase : natStr n.natAbs with
      | nil => exact absurd hcase hne
      | cons c t => exact ⟨c, t, rfl⟩
    have hcd := hd c (by rw [hct]; simp)
    have hcne : ¬ c = '-' := by
      intro hc
      subst hc
      revert hcd
      decide
    rw [hct] at htake hv hemp ⊢
    have step : parseIntTok ((c :: t) ++ rest)
        = (if c = '-' then
            (if (takeDigits (t ++ rest)).1.isEmpty = true then none
             else some (-(digitsVal (takeDigits (t ++ rest)).1 : Int),
                        (takeDigits (t ++ rest)).2))
           else
            (if (takeDigits ((c :: t) ++ rest)).1.isEmpty = true then none
             else some ((digitsVal (takeDigits ((c :: t) ++ rest)).1 : Int),
                        (takeDigits ((c :: t) ++ rest)).2))) := rfl
    rw [step, if_neg hcne, htake]
    rw [if_neg hemp, hv]
    have : ((n.natAbs : Nat) : Int) = n := by omega
    rw [this]

theorem hexDigitVal_hexDigitChar (d : Nat) (hd : d < 16) :
    hexDigitVal (hexDigitChar d) = some d := by
  interval_cases d <;> decide

theorem parseHex4_hex4 (n : Nat) (h : n < 65536) (rest : List Char) :
    parseHex4 (hex4 n ++ rest) = some (n, rest) := by
  have h1 : n / 4096 % 16 < 16 := Nat.mod_lt _ (by norm_num)
  have h2 : n / 256 % 16 < 16 := Nat.mod_lt _ (by norm_num)
  have h3 : n / 16 % 16 < 16 := Nat.mod_lt _ (by norm_num)
  have h4 : n % 16 < 16 := Nat.mod_lt _ (by norm_num)
  simp only [hex4, List.cons_append, List.nil_append, parseHex4,
    hexDigitVal_hexDigitChar _ h1, hexDigitVal_hexDigitChar _ h2,
    hexDigitVal_hexDigitChar _ h3, hexDigitVal_hexDigitChar _ h4]
  have key : 4096 * (n / 4096 % 16) + 256 * (n / 256 % 16) + 16 * (n / 16 % 16) + n % 16
      = n := by
    have e1 : n / 4096 % 16 = n / 4096 := Nat.mod_eq_of_lt (by omega)
    rw [e1]
    omega
  rw [key]

theorem parseStrBody_quote (f : Nat) (Y : List Char) :
    parseStrBody (f + 1) ('"' :: Y) = some ([], Y) := by
  rw [parseStrBody]
  rfl

theorem parseStrBody_eq (f : Nat) (Y : List Char) :
    parseStrBody (f + 1) ('\\' :: '"' :: Y) = consStr '"' (parseStrBody f Y) := by
  rw [parseStrBody]
  rfl

theorem parseStrBody_ebs (f : Nat) (Y : List Char) :
    parseStrBody (f + 1) ('\\' :: '\\' :: Y) = consStr '\\' (parseStrBody f Y) := by
  rw [parseStrBody]
  rfl

theorem parseStrBody_eb (f : Nat) (Y : List Char) :
    parseStrBody (f + 1) ('\\' :: 'b' :: Y) = consStr (Char.ofNat 8) (parseStrBody f Y) := by
  rw [parseStrBody]
  rfl

theorem parseStrBody_ef (f : Nat) (Y : List Char) :
    parseStrBody (f + 1) ('\\' :: 'f' :: Y) = consStr (Char.ofNat 12) (parseStrBody f Y) := by
  rw [parseStrBody]
  rfl

theorem parseStrBody_en (f : Nat) (Y : List Char) :
    parseStrBody (f + 1) ('\\' :: 'n' :: Y) = consStr '\n' (parseStrBody f Y) := by
  rw [parseStrBody]
  rfl

theorem parseStrBody_er (f : Nat) (Y : List Char) :
    parseStrBody (f + 1) ('\\' :: 'r' :: Y) = consStr '\r' (parseStrBody f Y) := by
  rw [parseStrBody]
  rfl

theorem parseStrBody_et (f : Nat) (Y : List Char) :
    parseStrBody (f + 1) ('\\' :: 't' :: Y) = consStr '\t' (parseStrBody f Y) := by
  rw [parseStrBody]
  rfl

theorem parseStrBody_plain (f : Nat) (c : Char) (Y : List Char)
    (h1 : ¬ c = '"') (h2 : ¬ c = '\\') (h3 : ¬ c.toNat < 0x20) :
    parseStrBody (f + 1) (c :: Y) = consStr c (parseStrBody f Y) := by
  rw [parseStrBody, parseStrStep.eq_def]
  dsimp only
  rw [if_neg h1, if_neg h2, if_neg h3]

theorem parseStrBody_u (f : Nat) (Y : List Char) :
    parseStrBody (f + 1) ('\\' :: 'u' :: Y)
    = (match parseHex4 Y with
       | none => none
       | some (h, rest3) =>
         if 0xd800 ≤ h ∧ h < 0xdc00 then surrCont (parseStrBody f) h rest3
         else
           (match charOfNatQ h with
            | some ch => consStr ch (parseStrBody f rest3)
            | none => none)) := by
  rw [parseStrBody]
  rfl

theorem surrCont_uu (k : List Char → Option (List Char × List Char)) (h : Nat)
    (Z : List Char) :
    surrCont k h ('\\' :: 'u' :: Z)
    = (match parseHex4 Z with
       | none => none
       | some (l, rest5) =>
         if 0xdc00 ≤ l ∧ l < 0xe000 then
           (match charOfNatQ (0x10000 + (h - 0xd800) * 1024 + (l - 0xdc00)) with
            | some ch => consStr ch (k rest5)
            | none => none)
         else none) := rfl

theorem escChar_length_pos (c : Char) : 1 ≤ (escChar c).length := by
  unfold escChar uEsc
  split_ifs <;> simp [hex4]

theorem parseStrBody_uescBMP (f : Nat) (c : Char) (s rest : List Char)
    (hbig : c.toNat < 0x10000)
    (ihf : parseStrBody f (escString s ++ '"' :: rest) = some (s, rest)) :
    parseStrBody (f + 1) ((('\\' :: 'u' :: hex4 c.toNat) ++ escString s) ++ '"' :: rest)
      = some (c :: s, rest) := by
  have hrange : c.toNat < 0xd800 ∨ (0xdfff < c.toNat ∧ c.toNat < 0x110000) := c.valid
  rw [show (('\\' :: 'u' :: hex4 c.toNat) ++ escString s) ++ '"' :: rest
        = '\\' :: 'u' :: (hex4 c.toNat ++ (escString s ++ '"' :: rest)) by simp]
  rw [parseStrBody_u, parseHex4_hex4 c.toNat (by omega)]
  dsimp only
  rw [if_neg (show ¬ (0xd800 ≤ c.toNat ∧ c.toNat < 0xdc00) by omega)]
  rw [charOfNatQ_toNat]
  dsimp only
  rw [ihf]
  rfl

theorem parseStrBody_uescSur (f : Nat) (c : Char) (s rest : List Char)
    (hbig : ¬ c.toNat < 0x10000)
    (ihf : parseStrBody f (escString s ++ '"' :: rest) = some (s, rest)) :
    parseStrBody (f + 1)
      (((('\\' :: 'u' :: hex4 (0xd800 + (c.toNat - 0x10000) / 1024))
          ++ ('\\' :: 'u' :: hex4 (0xdc00 + (c.toNat - 0x10000) % 1024)))
        ++ escString s) ++ '"' :: rest)
      = some (c :: s, rest) := by
  have hvalid : c.toNat.isValidChar := c.valid
  have hrange : c.toNat < 0xd800 ∨ (0xdfff < c.toNat ∧ c.toNat < 0x110000) := hvalid
  have hdiv : (c.toNat - 0x10000) / 1024 < 1024 := by omega
  have hmod : (c.toNat - 0x10000) % 1024 < 1024 := Nat.mod_lt _ (by norm_num)
  rw [show (((('\\' :: 'u' :: hex4 (0xd800 + (c.toNat - 0x10000) / 1024))
          ++ ('\\' :: 'u' :: hex4 (0xdc00 + (c.toNat - 0x10000) % 1024)))
        ++ escString s) ++ '"' :: rest)
        = '\\' :: 'u' :: (hex4 (0xd800 + (c.toNat - 0x10000) / 1024)
          ++ ('\\' :: 'u' :: (hex4 (0xdc00 + (c.toNat - 0x10000) % 1024)
            ++ (escString s ++ '"' :: rest)))) by simp]
  rw [parseStrBody_u,
    parseHex4_hex4 (0xd800 + (c.toNat - 0x10000) / 1024) (by omega)]
  dsimp only
  rw [if_pos (show 0xd800 ≤ 0xd800 + (c.toNat - 0x10000) / 1024
        ∧ 0xd800 + (c.toNat - 0x10000) / 1024 < 0xdc00 by
      constructor <;> omega)]
  rw [surrCont_uu, parseHex4_hex4 (0xdc00 + (c.toNat - 0x10000) % 1024) (by omega)]
  dsimp only
  rw [if_pos (show 0xdc00 ≤ 0xdc00 + (c.toNat - 0x10000) % 1024
        ∧ 0xdc00 + (c.toNat - 0x10000) % 1024 < 0xe000 by
      constructor <;> omega)]
  rw [show 0x10000
          + (0xd800 + (c.toNat - 0x10000) / 1024 - 0xd800) * 1024
          + (0xdc00 + (c.toNat - 0x10000) % 1024 - 0xdc00)
        = c.toNat by omega]
  rw [charOfNatQ_toNat]
  dsimp only
  rw [ihf]
  rfl

theorem parseStrBody_inv : ∀ (s rest : List Char) (fuel : Nat),
    (escString s).length + 1 ≤ fuel →
    parseStrBody fuel (escString s ++ '"' :: rest) = some (s, rest) := by
  intro s
  induction s with
  | nil =>
    intro rest fuel hfuel
    obtain ⟨f, rfl⟩ : ∃ f, fuel = f + 1 := ⟨fuel - 1, by omega⟩
    rw [show escString [] = [] from rfl, List.nil_append, parseStrBody_quote]
  | cons c s ih =>
    intro rest fuel hfuel
    have hesc : escString (c :: s) = escChar c ++ escString s := by
      simp [escString]
    rw [hesc] at hfuel ⊢
    have hclen := escChar_length_pos c
    obtain ⟨f, rfl⟩ : ∃ f, fuel = f + 1 := ⟨fuel - 1, by simp at hfuel; omega⟩
    have hf : (escString s).length + 1 ≤ f := by
      simp only [List.length_append] at hfuel
      omega
    have ihf := ih rest f hf
    by_cases h1 : c = '"'
    · subst h1
      rw [show escChar '"' = ['\\', '"'] from rfl]
      simp only [List.cons_append, List.nil_append]
      rw [parseStrBody_eq, ihf]
      rfl
    · by_cases h2 : c = '\\'
      · subst h2
        rw [show escChar '\\' = ['\\', '\\'] from rfl]
        simp only [List.cons_append, List.nil_append]
        rw [parseStrBody_ebs, ihf]
        rfl
      · by_cases h3 : c.toNat = 8
        · have hc : c = Char.ofNat 8 := by rw [← Char.ofNat_toNat c, h3]
          subst hc
          rw [show escChar (Char.ofNat 8) = ['\\', 'b'] from rfl]
          simp only [List.cons_append, List.nil_append]
          rw [parseStrBody_eb, ihf]
          rfl
        · by_cases h4 : c.toNat = 12
          · have hc : c = Char.ofNat 12 := by rw [← Char.ofNat_toNat c, h4]
            subst hc
            rw [show escChar (Char.ofNat 12) = ['\\', 'f'] from rfl]
            simp only [List.cons_append, List.nil_append]
            rw [parseStrBody_ef, ihf]
            rfl
          · by_cases h5 : c = '\n'
            · subst h5
              rw [show escChar '\n' = ['\\', 'n'] from rfl]
              simp only [List.cons_append, List.nil_append]
              rw [parseStrBody_en, ihf]
              rfl
            · by_cases h6 : c = '\r'
              · subst h6
                rw [show escChar '\r' = ['\\', 'r'] from rfl]
                simp only [List.cons_append, List.nil_append]
                rw [parseStrBody_er, ihf]
                rfl
              · by_cases h7 : c = '\t'
                · subst h7
                  rw [show escChar '\t' = ['\\', 't'] from rfl]
                  simp only [List.cons_append, List.nil_append]
                  rw [parseStrBody_et, ihf]
                  rfl
                · by_cases h8 : c.toNat < 0x20 ∨ 0x7e < c.toNat
                  · rw [show escChar c = uEsc c.toNat by
                      simp [escChar, h1, h2, h3, h4, h5, h6, h7, h8]]
                    by_cases hbig : c.toNat < 0x10000
                    · rw [show uEsc c.toNat = '\\' :: 'u' :: hex4 c.toNat by
                        simp [uEsc, hbig]]
                      exact parseStrBody_uescBMP f c s rest hbig ihf
                    · rw [show uEsc c.toNat
                            = ('\\' :: 'u' :: hex4 (0xd800 + (c.toNat - 0x10000) / 1024))
                              ++ ('\\' :: 'u' :: hex4 (0xdc00 + (c.toNat - 0x10000) % 1024)) by
                        simp [uEsc, hbig]]
                      exact parseStrBody_uescSur f c s rest hbig ihf
                  · rw [show escChar c = [c] by
                      simp [escChar, h1, h2, h3, h4, h5, h6, h7, h8]]
                    have hlow : ¬ c.toNat < 0x20 := by omega
                    rw [show ([c] : List Char) ++ escString s ++ '"' :: rest
                          = c :: (escString s ++ '"' :: rest) by simp]
                    rw [parseStrBody_plain f c _ h1 h2 hlow, ihf]
                    rfl

/-! ### The scanner reads back what the printer wrote -/

theorem parseP_succ (f : Nat) (mode : PMode) (input : List Char) :
    parseP (f + 1) mode input = parsePStep (parseP f) mode input := by
  rw [parseP]

/-- Concatenation of two JSON arrays. -/
def JArr.append : JArr → JArr → JArr
  | .nil, b => b
  | .cons h t, b => .cons h (t.append b)

/-- The element loop's accumulator, folded over the remaining elements. -/
def JArr.pushAll : JArr → JArr → JArr
  | acc, .nil => acc
  | acc, .cons v tl => JArr.pushAll (acc.push v) tl

/-- The member loop's accumulator, folded over the remaining members by
dictionary insertion. -/
def JObj.insertAll : JObj → JObj → JObj
  | acc, .nil => acc
  | acc, .cons k v tl => JObj.insertAll (acc.insert k v) tl

theorem JArr.push_eq_append : ∀ (a : JArr) (v : JValue),
    a.push v = a.append (.cons v .nil)
  | .nil, _ => rfl
  | .cons h t, v => by
    simp only [JArr.push, JArr.append]
    rw [JArr.push_eq_append t v]

theorem JArr.append_assoc : ∀ (a b c : JArr),
    (a.append b).append c = a.append (b.append c)
  | .nil, _, _ => rfl
  | .cons h t, b, c => by
    simp only [JArr.append]
    rw [JArr.append_assoc t b c]

theorem JArr.append_nil : ∀ (a : JArr), a.append .nil = a
  | .nil => rfl
  | .cons h t => by
    simp only [JArr.append]
    rw [JArr.append_nil t]

theorem JArr.pushAll_eq_append : ∀ (b a : JArr), JArr.pushAll a b = a.append b
  | .nil, a => by
    rw [show JArr.pushAll a .nil = a from rfl, JArr.append_nil]
  | .cons v tl, a => by
    rw [show JArr.pushAll a (.cons v tl) = JArr.pushAll (a.push v) tl from rfl,
      JArr.pushAll_eq_append tl (a.push v), JArr.push_eq_append, JArr.append_assoc]
    rfl

theorem JObj.keys_append : ∀ (a b : JObj), (a.append b).keys = a.keys ++ b.keys
  | .nil, _ => rfl
  | .cons k v tl, b => by
    simp only [JObj.append, JObj.keys]
    rw [JObj.keys_append tl b, List.cons_append]

theorem JObj.obj_append_assoc : ∀ (a b c : JObj),
    (a.append b).append c = a.append (b.append c)
  | .nil, _, _ => rfl
  | .cons k v t, b, c => by
    simp only [JObj.append]
    rw [JObj.obj_append_assoc t b c]

theorem JObj.obj_append_nil : ∀ (a : JObj), a.append .nil = a
  | .nil => rfl
  | .cons k v t => by
    simp only [JObj.append]
    rw [JObj.obj_append_nil t]

theorem JObj.insert_fresh : ∀ (o : JObj) (k : List Char) (v : JValue),
    ¬ k ∈ o.keys → o.insert k v = o.append (.cons k v .nil)
  | .nil, _, _, _ => rfl
  | .cons k2 v2 tl, k, v, h => by
    simp only [JObj.keys, List.mem_cons, not_or] at h
    obtain ⟨hk, htl⟩ := h
    simp only [JObj.insert, JObj.append]
    rw [if_neg (fun he => hk he.symm), JObj.insert_fresh tl k v htl]

theorem JObj.insertAll_eq_append : ∀ (o acc : JObj),
    wfObj o → (∀ kk ∈ o.keys, ¬ kk ∈ acc.keys) →
    JObj.insertAll acc o = acc.append o
  | .nil, acc, _, _ => by
    rw [show JObj.insertAll acc .nil = acc from rfl, JObj.obj_append_nil]
  | .cons k v tl, acc, hwf, hdisj => by
    simp only [wfObj] at hwf
    obtain ⟨hkfresh, hv, htl⟩ := hwf
    have hkacc : ¬ k ∈ acc.keys := hdisj k (by simp [JObj.keys])
    rw [show JObj.insertAll acc (.cons k v tl) = JObj.insertAll (acc.insert k v) tl
          from rfl]
    rw [JObj.insert_fresh acc k v hkacc]
    rw [JObj.insertAll_eq_append tl (acc.append (.cons k v .nil)) htl ?fresh]
    · rw [JObj.obj_append_assoc]
      rfl
    case fresh =>
      intro kk hkk
      rw [JObj.keys_append]
      simp only [List.mem_append, not_or]
      refine ⟨hdisj kk (by simp [JObj.keys, hkk]), ?_⟩
      simp only [JObj.keys, List.mem_cons, List.not_mem_nil, or_false]
      intro he
      rw [he] at hkk
      exact hkfresh hkk

theorem char_ne_of_toNat_ne {c d : Char} (h : c.toNat ≠ d.toNat) : ¬ c = d :=
  fun he => h (by rw [he])

theorem isWsChar_false_of_toNat {c : Char} (h1 : ¬ c.toNat = 32) (h2 : ¬ c.toNat = 9)
    (h3 : ¬ c.toNat = 10) (h4 : ¬ c.toNat = 13) : isWsChar c = false := by
  simp only [isWsChar, decide_eq_false_iff_not]
  rintro (rfl | rfl | rfl | rfl)
  · exact h1 rfl
  · exact h2 rfl
  · exact h3 rfl
  · exact h4 rfl

theorem intStr_head (n : Int) : ∃ c t, intStr n = c :: t
    ∧ (c.toNat = 45 ∨ (48 ≤ c.toNat ∧ c.toNat ≤ 57)) := by
  obtain ⟨hv, hne, hd⟩ := natStr_spec n.natAbs
  by_cases hneg : n < 0
  · exact ⟨'-', natStr n.natAbs, by simp [intStr, hneg], Or.inl rfl⟩
  · obtain ⟨c, t, hct⟩ : ∃ c t, natStr n.natAbs = c :: t := by
      cases hcs : natStr n.natAbs with
      | nil => exact absurd hcs hne
      | cons c t => exact ⟨c, t, rfl⟩
    refine ⟨c, t, by simp [intStr, hneg, hct], Or.inr ?_⟩
    exact hd c (by rw [hct]; simp)

theorem dumpsVal_head (v : JValue) : ∃ c t, dumpsVal v = c :: t
    ∧ isWsChar c = false ∧ ¬ c = ']' ∧ ¬ c = '}' := by
  cases v with
  | null => refine ⟨'n', _, rfl, ?_, ?_, ?_⟩ <;> decide
  | bool b =>
    cases b with
    | true => refine ⟨'t', _, rfl, ?_, ?_, ?_⟩ <;> decide
    | false => refine ⟨'f', _, rfl, ?_, ?_, ?_⟩ <;> decide
  | int n =>
    obtain ⟨c, t, hct, hc⟩ := intStr_head n
    refine ⟨c, t, by rw [show dumpsVal (.int n) = intStr n from rfl, hct], ?_, ?_, ?_⟩
    · exact isWsChar_false_of_toNat (by omega) (by omega) (by omega) (by omega)
    · refine char_ne_of_toNat_ne ?_
      rw [show (']' : Char).toNat = 93 from rfl]
      omega
    · refine char_ne_of_toNat_ne ?_
      rw [show ('}' : Char).toNat = 125 from rfl]
      omega
  | str s => refine ⟨'"', _, rfl, ?_, ?_, ?_⟩ <;> decide
  | arr a =>
    cases a with
    | nil => refine ⟨'[', _, rfl, ?_, ?_, ?_⟩ <;> decide
    | cons v tl => refine ⟨'[', _, rfl, ?_, ?_, ?_⟩ <;> decide
  | obj o =>
    cases o with
    | nil => refine ⟨'{', _, rfl, ?_, ?_, ?_⟩ <;> decide
    | cons k v tl => refine ⟨'{', _, rfl, ?_, ?_, ?_⟩ <;> decide

theorem notDigitHead_dumpsArrTail (tl : JArr) (R : List Char) :
    NotDigitHead (dumpsArrTail tl ++ ']' :: R) := by
  cases tl with
  | nil =>
    rw [show dumpsArrTail .nil = [] from rfl, List.nil_append]
    exact (by decide : ¬ (48 ≤ (']' : Char).toNat ∧ (']' : Char).toNat ≤ 57))
  | cons v tl =>
    rw [show dumpsArrTail (.cons v tl) = ',' :: ' ' :: (dumpsVal v ++ dumpsArrTail tl)
          from rfl]
    exact (by decide : ¬ (48 ≤ (',' : Char).toNat ∧ (',' : Char).toNat ≤ 57))

theorem notDigitHead_dumpsObjTail (tl : JObj) (R : List Char) :
    NotDigitHead (dumpsObjTail tl ++ '}' :: R) := by
  cases tl with
  | nil =>
    rw [show dumpsObjTail .nil = [] from rfl, List.nil_append]
    exact (by decide : ¬ (48 ≤ ('}' : Char).toNat ∧ ('}' : Char).toNat ≤ 57))
  | cons k v tl =>
    rw [show dumpsObjTail (.cons k v tl)
          = ',' :: ' ' :: (('"' :: escString k ++ '"' :: ':' :: ' ' :: dumpsVal v)
            ++ dumpsObjTail tl) from rfl]
    exact (by decide : ¬ (48 ≤ (',' : Char).toNat ∧ (',' : Char).toNat ≤ 57))

theorem jfuelVal_pos (v : JValue) : 1 ≤ jfuelVal v := by
  cases v <;> simp only [jfuelVal] <;> omega

theorem ws_space : ∀ c ∈ [' '], isWsChar c = true := by
  intro c hc
  simp only [List.mem_singleton] at hc
  subst hc
  decide

theorem ws_nil : ∀ c ∈ ([] : List Char), isWsChar c = true := by
  intro c hc
  exact absurd hc (List.not_mem_nil c)

theorem parseP_inv : ∀ fuel : Nat,
    (∀ (v : JValue) (W R : List Char), wfVal v → (∀ c ∈ W, isWsChar c = true) →
      NotDigitHead R → jfuelVal v ≤ fuel →
      parseP fuel .val (W ++ dumpsVal v ++ R) = some (v, R))
    ∧ (∀ (k : List Char) (v : JValue) (tl : JObj) (acc : JObj) (W R : List Char),
      wfObj (.cons k v tl) → (∀ c ∈ W, isWsChar c = true) →
      jfuelObj (.cons k v tl) ≤ fuel →
      parseP fuel (.members acc)
        (W ++ ('"' :: escString k ++ '"' :: ':' :: ' ' :: dumpsVal v)
          ++ dumpsObjTail tl ++ '}' :: R)
      = some (.obj (JObj.insertAll acc (.cons k v tl)), R))
    ∧ (∀ (v : JValue) (tl : JArr) (acc : JArr) (W R : List Char),
      wfVal v → wfArr tl → (∀ c ∈ W, isWsChar c = true) →
      jfuelArr (.cons v tl) ≤ fuel →
      parseP fuel (.elems acc) (W ++ dumpsVal v ++ dumpsArrTail tl ++ ']' :: R)
      = some (.arr (JArr.pushAll acc (.cons v tl)), R)) := by
  intro fuel
  induction fuel with
  | zero =>
    refine ⟨?_, ?_, ?_⟩
    · intro v W R _ _ _ hfuel
      exact absurd hfuel (by have := jfuelVal_pos v; omega)
    · intro k v tl acc W R _ _ hfuel
      simp only [jfuelObj] at hfuel
      omega
    · intro v tl acc W R _ _ _ hfuel
      simp only [jfuelArr] at hfuel
      have := jfuelVal_pos v
      omega
  | succ f ih =>
    obtain ⟨ih1, ih2, ih3⟩ := ih
    refine ⟨?_, ?_, ?_⟩
    · -- value mode
      intro v W R hwf hW hR hfuel
      rw [parseP_succ, parsePStep, parseValStep]
      cases v with
      | null =>
        rw [show skipWs (W ++ dumpsVal .null ++ R) = 'n' :: ('u' :: 'l' :: 'l' :: R) by
          rw [List.append_assoc, skipWs_ws_prefix W _ hW]
          rw [show dumpsVal .null ++ R = 'n' :: ('u' :: 'l' :: 'l' :: R) by
            rw [show dumpsVal .null = ['n', 'u', 'l', 'l'] from rfl]
            simp]
          exact skipWs_cons_not_ws 'n' _ (by decide)]
        rfl
      | bool b =>
        cases b with
        | true =>
          rw [show skipWs (W ++ dumpsVal (.bool true) ++ R)
                = 't' :: ('r' :: 'u' :: 'e' :: R) by
            rw [List.append_assoc, skipWs_ws_prefix W _ hW]
            rw [show dumpsVal (.bool true) ++ R = 't' :: ('r' :: 'u' :: 'e' :: R) by
              rw [show dumpsVal (.bool true) = ['t', 'r', 'u', 'e'] from rfl]
              simp]
            exact skipWs_cons_not_ws 't' _ (by decide)]
          rfl
        | false =>
          rw [show skipWs (W ++ dumpsVal (.bool false) ++ R)
                = 'f' :: ('a' :: 'l' :: 's' :: 'e' :: R) by
            rw [List.append_assoc, skipWs_ws_prefix W _ hW]
            rw [show dumpsVal (.bool false) ++ R
                  = 'f' :: ('a' :: 'l' :: 's' :: 'e' :: R) by
              rw [show dumpsVal (.bool false) = ['f', 'a', 'l', 's', 'e'] from rfl]
              simp]
            exact skipWs_cons_not_ws 'f' _ (by decide)]
          rfl
      | int n =>
        obtain ⟨c, t, hct, hc⟩ := intStr_head n
        have hwsc : isWsChar c = false :=
          isWsChar_false_of_toNat (by omega) (by omega) (by omega) (by omega)
        rw [show skipWs (W ++ dumpsVal (.int n) ++ R) = c :: (t ++ R) by
          rw [List.append_assoc, skipWs_ws_prefix W _ hW]
          rw [show dumpsVal (.int n) ++ R = c :: (t ++ R) by
            rw [show dumpsVal (.int n) = intStr n from rfl, hct]
            simp]
          exact skipWs_cons_not_ws c _ hwsc]
        split
        next heq => exact absurd heq (by simp)
        next c0 rest0 heq =>
          obtain ⟨rfl, rfl⟩ : c0 = c ∧ rest0 = t ++ R := by
            injection heq with h1 h2
            exact ⟨h1.symm, h2.symm⟩
          rw [if_neg (char_ne_of_toNat_ne (show c0.toNat ≠ ('{' : Char).toNat by
                rw [show ('{' : Char).toNat = 123 from rfl]; omega)),
            if_neg (char_ne_of_toNat_ne (show c0.toNat ≠ ('[' : Char).toNat by
                rw [show ('[' : Char).toNat = 91 from rfl]; omega)),
            if_neg (char_ne_of_toNat_ne (show c0.toNat ≠ ('"' : Char).toNat by
                rw [show ('"' : Char).toNat = 34 from rfl]; omega)),
            if_neg (char_ne_of_toNat_ne (show c0.toNat ≠ ('n' : Char).toNat by
                rw [show ('n' : Char).toNat = 110 from rfl]; omega)),
            if_neg (char_ne_of_toNat_ne (show c0.toNat ≠ ('t' : Char).toNat by
                rw [show ('t' : Char).toNat = 116 from rfl]; omega)),
            if_neg (char_ne_of_toNat_ne (show c0.toNat ≠ ('f' : Char).toNat by
                rw [show ('f' : Char).toNat = 102 from rfl]; omega))]
          rw [show c0 :: (t ++ R) = intStr n ++ R by rw [hct]; simp]
          rw [parseIntTok_inv n R hR]
      | str s =>
        rw [show skipWs (W ++ dumpsVal (.str s) ++ R)
              = '"' :: (escString s ++ '"' :: R) by
          rw [List.append_assoc, skipWs_ws_prefix W _ hW]
          rw [show dumpsVal (.str s) ++ R = '"' :: (escString s ++ '"' :: R) by
            rw [show dumpsVal (.str s) = '"' :: (escString s ++ ['"']) from rfl]
            simp]
          exact skipWs_cons_not_ws '"' _ (by decide)]
        split
        next heq => exact absurd heq (by simp)
        next c0 rest0 heq =>
          obtain ⟨rfl, rfl⟩ : c0 = '"' ∧ rest0 = escString s ++ '"' :: R := by
            injection heq with h1 h2
            exact ⟨h1.symm, h2.symm⟩
          rw [if_neg (by decide), if_neg (by decide), if_pos rfl]
          rw [parseStrBody_inv s R ((escString s ++ '"' :: R).length + 1)
            (by simp only [List.length_append, List.length_cons]; omega)]
      | arr a =>
        cases a with
        | nil =>
          rw [show skipWs (W ++ dumpsVal (.arr .nil) ++ R) = '[' :: (']' :: R) by
            rw [List.append_assoc, skipWs_ws_prefix W _ hW]
            rw [show dumpsVal (.arr .nil) ++ R = '[' :: (']' :: R) by
              rw [show dumpsVal (.arr .nil) = ['[', ']'] from rfl]
              simp]
            exact skipWs_cons_not_ws '[' _ (by decide)]
          rfl
        | cons v tl =>
          have hva : wfVal v ∧ wfArr tl := by
            simpa only [wfVal, wfArr] using hwf
          rw [show skipWs (W ++ dumpsVal (.arr (.cons v tl)) ++ R)
                = '[' :: (dumpsVal v ++ (dumpsArrTail tl ++ ']' :: R)) by
            rw [List.append_assoc, skipWs_ws_prefix W _ hW]
            rw [show dumpsVal (.arr (.cons v tl)) ++ R
                  = '[' :: (dumpsVal v ++ (dumpsArrTail tl ++ ']' :: R)) by
              rw [show dumpsVal (.arr (.cons v tl))
                    = '[' :: ((dumpsVal v ++ dumpsArrTail tl) ++ [']']) from rfl]
              simp]
            exact skipWs_cons_not_ws '[' _ (by decide)]
          split
          next heq => exact absurd heq (by simp)
          next c0 rest0 heq =>
            obtain ⟨rfl, rfl⟩ :
                c0 = '[' ∧ rest0 = dumpsVal v ++ (dumpsArrTail tl ++ ']' :: R) := by
              injection heq with h1 h2
              exact ⟨h1.symm, h2.symm⟩
            rw [if_neg (by decide), if_pos rfl]
            obtain ⟨ch, th, hcth, hwsh, hne1, hne2⟩ := dumpsVal_head v
            rw [show skipWs (dumpsVal v ++ (dumpsArrTail tl ++ ']' :: R))
                  = ch :: (th ++ (dumpsArrTail tl ++ ']' :: R)) by
              rw [show dumpsVal v ++ (dumpsArrTail tl ++ ']' :: R)
                    = ch :: (th ++ (dumpsArrTail tl ++ ']' :: R)) by
                rw [hcth]
                simp]
              exact skipWs_cons_not_ws ch _ hwsh]
            split
            next c2 r2 heq2 =>
              obtain ⟨rfl, rfl⟩ :
                  c2 = ch ∧ r2 = th ++ (dumpsArrTail tl ++ ']' :: R) := by
                injection heq2 with h1 h2
                exact ⟨h1.symm, h2.symm⟩
              rw [if_neg hne1]
              have h3 := ih3 v tl JArr.nil [] R hva.1 hva.2 ws_nil
                (by simp only [jfuelVal] at hfuel; omega)
              simp only [List.nil_append, List.append_assoc] at h3
              rw [h3, JArr.pushAll_eq_append]
              rfl
            next heq2 => exact absurd heq2 (by simp)
      | obj o =>
        cases o with
        | nil =>
          rw [show skipWs (W ++ dumpsVal (.obj .nil) ++ R) = '{' :: ('}' :: R) by
            rw [List.append_assoc, skipWs_ws_prefix W _ hW]
            rw [show dumpsVal (.obj .nil) ++ R = '{' :: ('}' :: R) by
              rw [show dumpsVal (.obj .nil) = ['{', '}'] from rfl]
              simp]
            exact skipWs_cons_not_ws '{' _ (by decide)]
          rfl
        | cons k v tl =>
          have hwo : wfObj (.cons k v tl) := by
            simpa only [wfVal] using hwf
          rw [show skipWs (W ++ dumpsVal (.obj (.cons k v tl)) ++ R)
                = '{' :: (('"' :: escString k ++ '"' :: ':' :: ' ' :: dumpsVal v)
                  ++ (dumpsObjTail tl ++ '}' :: R)) by
            rw [List.append_assoc, skipWs_ws_prefix W _ hW]
            rw [show dumpsVal (.obj (.cons k v tl)) ++ R
                  = '{' :: (('"' :: escString k ++ '"' :: ':' :: ' ' :: dumpsVal v)
                    ++ (dumpsObjTail tl ++ '}' :: R)) by
              rw [show dumpsVal (.obj (.cons k v tl))
                    = '{' :: ((('"' :: escString k ++ '"' :: ':' :: ' ' :: dumpsVal v)
                      ++ dumpsObjTail tl) ++ ['}']) from rfl]
              simp]
            exact skipWs_cons_not_ws '{' _ (by decide)]
          split
          next heq => exact absurd heq (by simp)
          next c0 rest0 heq =>
            obtain ⟨rfl, rfl⟩ : c0 = '{'
                ∧ rest0 = ('"' :: escString k ++ '"' :: ':' :: ' ' :: dumpsVal v)
                  ++ (dumpsObjTail tl ++ '}' :: R) := by
              injection heq with h1 h2
              exact ⟨h1.symm, h2.symm⟩
            rw [if_pos rfl]
            rw [show skipWs (('"' :: escString k ++ '"' :: ':' :: ' ' :: dumpsVal v)
                  ++ (dumpsObjTail tl ++ '}' :: R))
                = '"' :: ((escString k ++ '"' :: ':' :: ' ' :: dumpsVal v)
                  ++ (dumpsObjTail tl ++ '}' :: R)) by
              rw [show (('"' :: escString k ++ '"' :: ':' :: ' ' :: dumpsVal v)
                    ++ (dumpsObjTail tl ++ '}' :: R))
                  = '"' :: ((escString k ++ '"' :: ':' :: ' ' :: dumpsVal v)
                    ++ (dumpsObjTail tl ++ '}' :: R)) by simp]
              exact skipWs_cons_not_ws '"' _ (by decide)]
            split
            next c2 r2 heq2 =>
              obtain ⟨rfl, rfl⟩ : c2 = '"'
                  ∧ r2 = (escString k ++ '"' :: ':' :: ' ' :: dumpsVal v)
                    ++ (dumpsObjTail tl ++ '}' :: R) := by
                injection heq2 with h1 h2
                exact ⟨h1.symm, h2.symm⟩
              rw [if_neg (by decide)]
              have h2 := ih2 k v tl JObj.nil [] R hwo ws_nil
                (by simp only [jfuelVal] at hfuel; omega)
              simp only [List.nil_append, List.append_assoc] at h2
              simp only [List.append_assoc]
              rw [h2, JObj.insertAll_eq_append _ _ hwo
                (by intro kk _; simp [JObj.keys])]
              rfl
            next heq2 => exact absurd heq2 (by simp)
    · -- members mode
      intro k v tl acc W R hwf hW hfuel
      have hwfv : wfVal v := by
        simp only [wfObj] at hwf
        exact hwf.2.1
      rw [parseP_succ, parsePStep, parseMembersStep]
      rw [show skipWs (W ++ ('"' :: escString k ++ '"' :: ':' :: ' ' :: dumpsVal v)
            ++ dumpsObjTail tl ++ '}' :: R)
          = '"' :: (escString k
            ++ '"' :: (':' :: ' ' :: dumpsVal v ++ (dumpsObjTail tl ++ '}' :: R))) by
        rw [List.append_assoc, List.append_assoc, skipWs_ws_prefix W _ hW]
        rw [show ('"' :: escString k ++ '"' :: ':' :: ' ' :: dumpsVal v)
              ++ (dumpsObjTail tl ++ '}' :: R)
            = '"' :: (escString k
              ++ '"' :: (':' :: ' ' :: dumpsVal v ++ (dumpsObjTail tl ++ '}' :: R)))
          by simp]
        exact skipWs_cons_not_ws '"' _ (by decide)]
      split
      next c0 rest0 heq =>
        obtain ⟨rfl, rfl⟩ : c0 = '"'
            ∧ rest0 = escString k
              ++ '"' :: (':' :: ' ' :: dumpsVal v ++ (dumpsObjTail tl ++ '}' :: R)) := by
          injection heq with h1 h2
          exact ⟨h1.symm, h2.symm⟩
        rw [if_pos rfl]
        rw [parseStrBody_inv k
          (':' :: ' ' :: dumpsVal v ++ (dumpsObjTail tl ++ '}' :: R)) _
          (by simp only [List.length_append, List.length_cons]; omega)]
        dsimp only
        rw [show skipWs (':' :: ' ' :: dumpsVal v ++ (dumpsObjTail tl ++ '}' :: R))
              = ':' :: (' ' :: dumpsVal v ++ (dumpsObjTail tl ++ '}' :: R)) by
          rw [show (':' :: ' ' :: dumpsVal v ++ (dumpsObjTail tl ++ '}' :: R) : List Char)
                = ':' :: (' ' :: dumpsVal v ++ (dumpsObjTail tl ++ '}' :: R)) by simp]
          exact skipWs_cons_not_ws ':' _ (by decide)]
        split
        next c1 r2 heq2 =>
          obtain ⟨rfl, rfl⟩ : c1 = ':'
              ∧ r2 = ' ' :: dumpsVal v ++ (dumpsObjTail tl ++ '}' :: R) := by
            injection heq2 with h1 h2
            exact ⟨h1.symm, h2.symm⟩
          rw [if_pos rfl]
          have h1 := ih1 v [' '] (dumpsObjTail tl ++ '}' :: R) hwfv ws_space
            (notDigitHead_dumpsObjTail tl R)
            (by simp only [jfuelObj] at hfuel; omega)
          simp only [List.singleton_append, List.cons_append, List.nil_append, List.append_assoc] at h1
          simp only [List.cons_append, List.append_assoc]
          rw [h1]
          dsimp only
          cases tl with
          | nil =>
            rw [show dumpsObjTail JObj.nil ++ '}' :: R = '}' :: R by
              rw [show dumpsObjTail JObj.nil = [] from rfl]
              simp]
            rw [skipWs_cons_not_ws '}' _ (by decide)]
            split
            next c2 r4 heq3 =>
              obtain ⟨rfl, rfl⟩ : c2 = '}' ∧ r4 = R := by
                injection heq3 with h1 h2
                exact ⟨h1.symm, h2.symm⟩
              rw [if_neg (by decide), if_pos rfl]
              rfl
            next heq3 => exact absurd heq3 (by simp)
          | cons k2 v2 tl2 =>
            rw [show dumpsObjTail (JObj.cons k2 v2 tl2) ++ '}' :: R
                  = ',' :: (' '
                    :: (('"' :: escString k2 ++ '"' :: ':' :: ' ' :: dumpsVal v2)
                    ++ (dumpsObjTail tl2 ++ '}' :: R))) by
              rw [show dumpsObjTail (JObj.cons k2 v2 tl2)
                    = ',' :: ' '
                      :: (('"' :: escString k2 ++ '"' :: ':' :: ' ' :: dumpsVal v2)
                        ++ dumpsObjTail tl2) from rfl]
              simp]
            rw [skipWs_cons_not_ws ',' _ (by decide)]
            split
            next c2 r4 heq3 =>
              obtain ⟨rfl, rfl⟩ : c2 = ','
                  ∧ r4 = ' '
                    :: (('"' :: escString k2 ++ '"' :: ':' :: ' ' :: dumpsVal v2)
                    ++ (dumpsObjTail tl2 ++ '}' :: R)) := by
                injection heq3 with h1 h2
                exact ⟨h1.symm, h2.symm⟩
              rw [if_pos rfl]
              have hwo2 : wfObj (.cons k2 v2 tl2) := by
                simp only [wfObj] at hwf
                exact hwf.2.2
              have h2 := ih2 k2 v2 tl2 (acc.insert k v) [' '] R hwo2 ws_space
                (by simp only [jfuelObj] at hfuel ⊢; omega)
              simp only [List.singleton_append, List.cons_append, List.nil_append, List.append_assoc] at h2
              simp only [List.cons_append, List.append_assoc]
              rw [h2]
              rfl
            next heq3 => exact absurd heq3 (by simp)
        next heq2 => exact absurd heq2 (by simp)
      next heq => exact absurd heq (by simp)
    · -- elements mode
      intro v tl acc W R hwfv hwft hW hfuel
      rw [parseP_succ, parsePStep, parseElemsStep]
      have h1 := ih1 v W (dumpsArrTail tl ++ ']' :: R) hwfv hW
        (notDigitHead_dumpsArrTail tl R)
        (by simp only [jfuelArr] at hfuel; omega)
      simp only [List.append_assoc] at h1 ⊢
      rw [h1]
      dsimp only
      cases tl with
      | nil =>
        rw [show dumpsArrTail JArr.nil ++ ']' :: R = ']' :: R by
          rw [show dumpsArrTail JArr.nil = [] from rfl]
          simp]
        rw [skipWs_cons_not_ws ']' _ (by decide)]
        split
        next c1 r2 heq =>
          obtain ⟨rfl, rfl⟩ : c1 = ']' ∧ r2 = R := by
            injection heq with h1 h2
            exact ⟨h1.symm, h2.symm⟩
          rw [if_neg (by decide), if_pos rfl]
          rfl
        next heq => exact absurd heq (by simp)
      | cons v2 tl2 =>
        rw [show dumpsArrTail (JArr.cons v2 tl2) ++ ']' :: R
              = ',' :: (' ' :: (dumpsVal v2 ++ (dumpsArrTail tl2 ++ ']' :: R))) by
          rw [show dumpsArrTail (JArr.cons v2 tl2)
                = ',' :: ' ' :: (dumpsVal v2 ++ dumpsArrTail tl2) from rfl]
          simp]
        rw [skipWs_cons_not_ws ',' _ (by decide)]
        split
        next c1 r2 heq =>
          obtain ⟨rfl, rfl⟩ : c1 = ','
              ∧ r2 = ' ' :: (dumpsVal v2 ++ (dumpsArrTail tl2 ++ ']' :: R)) := by
            injection heq with h1 h2
            exact ⟨h1.symm, h2.symm⟩
          rw [if_pos rfl]
          have h3 := ih3 v2 tl2 (acc.push v) [' '] R
            (by simp only [wfArr] at hwft; exact hwft.1)
            (by simp only [wfArr] at hwft; exact hwft.2)
            ws_space
            (by simp only [jfuelArr] at hfuel ⊢; omega)
          simp only [List.singleton_append, List.cons_append, List.nil_append,
            List.append_assoc] at h3
          rw [h3]
          rfl
        next heq => exact absurd heq (by simp)

theorem intStr_length_pos (n : Int) : 1 ≤ (intStr n).length := by
  obtain ⟨c, t, hct, _⟩ := intStr_head n
  rw [hct]
  simp

mutual
theorem jfuelVal_le : ∀ (v : JValue), jfuelVal v ≤ 2 * (dumpsVal v).length
  | .null => by decide
  | .bool b => by cases b <;> decide
  | .int n => by
    have := intStr_length_pos n
    simp only [jfuelVal, dumpsVal]
    omega
  | .str s => by
    simp only [jfuelVal, dumpsVal, List.length_cons, List.length_append]
    omega
  | .arr .nil => by decide
  | .arr (.cons v tl) => by
    have h1 := jfuelVal_le v
    have h2 := jfuelArr_le tl
    simp only [jfuelVal, jfuelArr, dumpsVal, List.length_cons, List.length_append]
    omega
  | .obj .nil => by decide
  | .obj (.cons k v tl) => by
    have h1 := jfuelVal_le v
    have h2 := jfuelObj_le tl
    simp only [jfuelVal, jfuelObj, dumpsVal, List.length_cons, List.length_append]
    omega
theorem jfuelArr_le : ∀ (a : JArr), jfuelArr a ≤ 2 * (dumpsArrTail a).length + 1
  | .nil => by decide
  | .cons v tl => by
    have h1 := jfuelVal_le v
    have h2 := jfuelArr_le tl
    simp only [jfuelArr, dumpsArrTail, List.length_cons, List.length_append]
    omega
theorem jfuelObj_le : ∀ (o : JObj), jfuelObj o ≤ 2 * (dumpsObjTail o).length + 1
  | .nil => by decide
  | .cons k v tl => by
    have h1 := jfuelVal_le v
    have h2 := jfuelObj_le tl
    simp only [jfuelObj, dumpsObjTail, List.length_cons, List.length_append]
    omega
end

theorem jsonLoads_dumpsVal (v : JValue) (h : wfVal v) :
    jsonLoads (dumpsVal v) = .ok v := by
  have hp := (parseP_inv (2 * (dumpsVal v).length + 2)).1 v [] [] h ws_nil
    (by exact trivial)
    (by have := jfuelVal_le v; omega)
  simp only [List.nil_append, List.append_nil] at hp
  rw [jsonLoads, hp]
  rfl

/-! ### fileio.py: the `FileHeader` class -/

/-- `FileHeader.MAGIC_NUMBER`. -/
def MAGIC_NUMBER : List Char := "%APXDF".toList

/-- The registry of readout classes (fmt.py line 913): `AstroPix4Readout`
only, with unique ID `4000`; a readout class is modelled by its ID. -/
def registeredUids : List Int := [4000]

/-- `uid_to_readout_class` (fmt.py, lines 917-927). -/
def uid_to_readout_class (uid : Int) : Except String Int :=
  if uid ∈ registeredUids then .ok uid
  else .error "RuntimeError: unknown readout class"

/-- The reserved header key `FileHeader._READOUT_UID_KEY`. -/
def READOUT_UID_KEY : List Char := "readout_uid".toList

/-- A `FileHeader` is its content dictionary. -/
structure FileHeader where
  content : JObj

/-- `FileHeader.__init__`: start from `{'readout_uid': uid}` and
`dict.update` it with the optional extra content. -/
def mkFileHeader (uid : Int) (content : Option JObj) : FileHeader :=
  { content := match content with
      | none => .cons READOUT_UID_KEY (.int uid) .nil
      | some c => JObj.insertAll (.cons READOUT_UID_KEY (.int uid) .nil) c }

/-- `FileHeader.serialize`: `json.dumps(self._content)`. -/
def FileHeader.serialize (h : FileHeader) : List Char := dumpsVal (.obj h.content)

/-- `struct.pack('<I', n)`: raises `struct.error` unless `n < 2**32`. -/
def pack4 (n : Nat) : Except String (List Nat) :=
  if n < 2 ^ 32 then
    .ok [n % 256, n / 256 % 256, n / 2 ^ 16 % 256, n / 2 ^ 24 % 256]
  else .error "struct.error: argument out of range"

/-- `FileHeader.write`: the magic number, the 4-byte little-endian length
of the serialized content, and the content itself (`json.dumps` with
`ensure_ascii` emits pure ASCII, so utf-8 encoding is the code point per
character). -/
def FileHeader.write (h : FileHeader) : Except String (List Nat) :=
  match pack4 ((FileHeader.serialize h).map Char.toNat).length with
  | .error e => .error e
  | .ok lenBytes =>
    .ok (MAGIC_NUMBER.map Char.toNat ++ lenBytes ++ (FileHeader.serialize h).map Char.toNat)

/-- `FileHeader.deserialize`: `json.loads`, pop the reserved key, look the
ID up in the registry, and rebuild the header from the remaining content. -/
def FileHeader.deserialize (text : List Char) : Except String FileHeader :=
  match jsonLoads text with
  | .error e => .error e
  | .ok (.obj data) =>
    match data.lookup READOUT_UID_KEY with
    | none => .error "KeyError: readout_uid"
    | some (.int uid) =>
      match uid_to_readout_class uid with
      | .error e => .error e
      | .ok cls => .ok (mkFileHeader cls (some (data.erase READOUT_UID_KEY)))
    | some _ => .error "RuntimeError: unknown readout class"
  | .ok _ => .error "AttributeError: pop"

/-- `FileHeader.read`: check the magic number, read the 4-byte length,
then read and deserialize that many bytes, returning the header and the
rest of the stream. -/
def FileHeader.read (stream : List Nat) : Except String (FileHeader × List Nat) :=
  if stream.take 6 ≠ MAGIC_NUMBER.map Char.toNat then
    .error "RuntimeError: invalid magic number"
  else
    match unpackLE 4 ((stream.drop 6).take 4) with
    | .error e => .error e
    | .ok len =>
      match FileHeader.deserialize ((((stream.drop 6).drop 4).take len).map Char.ofNat) with
      | .error e => .error e
      | .ok h => .ok (h, ((stream.drop 6).drop 4).drop len)

/-- `FileHeader.__eq__` (fileio.py, lines 142-146): equal readout IDs and
equal full content dictionaries. -/
def headerEq (a b : FileHeader) : Prop :=
  a.content.lookup READOUT_UID_KEY = b.content.lookup READOUT_UID_KEY
  ∧ a.content = b.content

theorem leDecode_pack4 (n : Nat) (h : n < 2 ^ 32) :
    pack4 n = .ok [n % 256, n / 256 % 256, n / 2 ^ 16 % 256, n / 2 ^ 24 % 256]
    ∧ leDecode [n % 256, n / 256 % 256, n / 2 ^ 16 % 256, n / 2 ^ 24 % 256] = n := by
  refine ⟨by rw [pack4, if_pos h], ?_⟩
  simp only [leDecode, List.foldr]
  have e16 : (2 : ℕ) ^ 16 = 65536 := by norm_num
  have e24 : (2 : ℕ) ^ 24 = 16777216 := by norm_num
  have e32 : (2 : ℕ) ^ 32 = 4294967296 := by norm_num
  rw [e16, e24]
  rw [e32] at h
  omega

theorem map_ofNat_toNat (s : List Char) : (s.map Char.toNat).map Char.ofNat = s := by
  rw [List.map_map]
  have : Char.ofNat ∘ Char.toNat = id := by
    funext c
    exact Char.ofNat_toNat c
  rw [this, List.map_id]

theorem unpackLE_four (a b c d : Nat) :
    unpackLE 4 [a, b, c, d] = .ok (leDecode [a, b, c, d]) := by
  rw [unpackLE]
  exact if_pos rfl

/-- Claim C5 (corrected): writing a `FileHeader` and reading it back
reproduces an equal header (same readout ID, same full metadata
dictionary) *provided* the extra metadata does not itself contain the
reserved `readout_uid` key — a metadata dictionary such as
`{'readout_uid': 9999}` silently overrides the readout class ID in the
flattened content, and reading the file back then fails (see the
counterexample) — and the serialized content fits the 4-byte length
field. -/
theorem fileheader_write_read_roundtrip (uid : Int) (c : JObj) (rest : List Nat)
    (huid : uid ∈ registeredUids) (hwf : wfObj c)
    (hfresh : ¬ READOUT_UID_KEY ∈ c.keys)
    (hlen : ((mkFileHeader uid (some c)).serialize).length < 2 ^ 32) :
    ∃ (bs : List Nat) (h : FileHeader),
      (mkFileHeader uid (some c)).write = .ok bs
      ∧ FileHeader.read (bs ++ rest) = .ok (h, rest)
      ∧ headerEq h (mkFileHeader uid (some c)) := by
  have hc' : (mkFileHeader uid (some c)).content
      = .cons READOUT_UID_KEY (.int uid) c := by
    show JObj.insertAll (.cons READOUT_UID_KEY (.int uid) .nil) c = _
    rw [JObj.insertAll_eq_append c _ hwf ?disj]
    · rfl
    case disj =>
      intro kk hkk
      simp only [JObj.keys, List.mem_cons, List.not_mem_nil, or_false]
      intro he
      rw [he] at hkk
      exact hfresh hkk
  have hwfv : wfVal (.obj ((mkFileHeader uid (some c)).content)) := by
    rw [hc']
    simp only [wfVal, wfObj]
    exact ⟨hfresh, by simp only [wfVal], hwf⟩
  obtain ⟨hpack, hdec⟩ :=
    leDecode_pack4 ((mkFileHeader uid (some c)).serialize).length hlen
  refine ⟨MAGIC_NUMBER.map Char.toNat
      ++ [((mkFileHeader uid (some c)).serialize).length % 256,
          ((mkFileHeader uid (some c)).serialize).length / 256 % 256,
          ((mkFileHeader uid (some c)).serialize).length / 2 ^ 16 % 256,
          ((mkFileHeader uid (some c)).serialize).length / 2 ^ 24 % 256]
      ++ ((mkFileHeader uid (some c)).serialize).map Char.toNat,
    mkFileHeader uid (some c), ?_, ?_, rfl, rfl⟩
  · unfold FileHeader.write
    rw [List.length_map, hpack]
  · have h6 : ((MAGIC_NUMBER.map Char.toNat
        ++ [((mkFileHeader uid (some c)).serialize).length % 256,
            ((mkFileHeader uid (some c)).serialize).length / 256 % 256,
            ((mkFileHeader uid (some c)).serialize).length / 2 ^ 16 % 256,
            ((mkFileHeader uid (some c)).serialize).length / 2 ^ 24 % 256]
        ++ ((mkFileHeader uid (some c)).serialize).map Char.toNat) ++ rest)
        = MAGIC_NUMBER.map Char.toNat
          ++ ([((mkFileHeader uid (some c)).serialize).length % 256,
              ((mkFileHeader uid (some c)).serialize).length / 256 % 256,
              ((mkFileHeader uid (some c)).serialize).length / 2 ^ 16 % 256,
              ((mkFileHeader uid (some c)).serialize).length / 2 ^ 24 % 256]
            ++ (((mkFileHeader uid (some c)).serialize).map Char.toNat ++ rest)) := by
      simp [List.append_assoc]
    rw [h6]
    unfold FileHeader.read
    rw [if_neg (by
      rw [List.take_left' (by rw [List.length_map]; rfl)]
      simp)]
    rw [List.drop_left' (by rw [List.length_map]; rfl)]
    rw [List.take_left' (by rfl), List.drop_left' (by rfl)]
    rw [show unpackLE 4
          [((mkFileHeader uid (some c)).serialize).length % 256,
           ((mkFileHeader uid (some c)).serialize).length / 256 % 256,
           ((mkFileHeader uid (some c)).serialize).length / 2 ^ 16 % 256,
           ((mkFileHeader uid (some c)).serialize).length / 2 ^ 24 % 256]
        = .ok ((mkFileHeader uid (some c)).serialize).length by
      rw [unpackLE_four, hdec]]
    dsimp only
    rw [List.take_left' (by rw [List.length_map]),
      List.drop_left' (by rw [List.length_map])]
    rw [map_ofNat_toNat]
    rw [show FileHeader.deserialize ((mkFileHeader uid (some c)).serialize)
        = .ok (mkFileHeader uid (some c)) by
      unfold FileHeader.deserialize
      rw [show (mkFileHeader uid (some c)).serialize
            = dumpsVal (.obj ((mkFileHeader uid (some c)).content)) from rfl]
      rw [jsonLoads_dumpsVal _ hwfv]
      dsimp only
      rw [hc']
      rw [show (JObj.cons READOUT_UID_KEY (.int uid) c).lookup READOUT_UID_KEY
            = some (.int uid) by simp [JObj.lookup]]
      dsimp only
      rw [show uid_to_readout_class uid = .ok uid by
        rw [uid_to_readout_class, if_pos huid]]
      dsimp only
      rw [show (JObj.cons READOUT_UID_KEY (.int uid) c).erase READOUT_UID_KEY = c by
        simp [JObj.erase]]]

/-- A metadata dictionary carrying the reserved `readout_uid` key silently
overrides the readout class ID recorded by the constructor (Python's
`dict.update`), so the written file names an unregistered readout class
and reading it back raises instead of reproducing the header: the
write/read round trip of claim C5 fails for this header. -/
theorem fileheader_metadata_override_breaks_roundtrip :
    Except.bind
      ((mkFileHeader 4000 (some (JObj.cons READOUT_UID_KEY (.int 9999) .nil))).write)
      FileHeader.read
    = .error "RuntimeError: unknown readout class" := by
  rfl

/-- Witness for the corrected C5 round trip: readout ID `4000`, metadata
`{"temperature": 23}`, one trailing byte after the header. -/
theorem fileheader_write_read_roundtrip_witness :
    ∃ (bs : List Nat) (h : FileHeader),
      (mkFileHeader 4000 (some (JObj.cons "temperature".toList (.int 23) .nil))).write
        = .ok bs
      ∧ FileHeader.read (bs ++ [0xfe]) = .ok (h, [0xfe])
      ∧ headerEq h (mkFileHeader 4000
          (some (JObj.cons "temperature".toList (.int 23) .nil))) :=
  fileheader_write_read_roundtrip 4000
    (JObj.cons "temperature".toList (.int 23) .nil) [0xfe]
    (by decide)
    (by exact ⟨by simp [JObj.keys], by simp only [wfVal], by simp only [wfObj]⟩)
    (by decide)
    (by decide)

/-! ### legacy.py: `log_to_apx` -/

/-- The ASCII whitespace that `bytes.fromhex` ignores between bytes. -/
def isPyWs (c : Char) : Bool :=
  c.toNat = 32 ∨ c.toNat = 9 ∨ c.toNat = 10 ∨ c.toNat = 13 ∨ c.toNat = 11 ∨ c.toNat = 12

/-- One step of `bytes.fromhex`: skip whitespace, then demand two
hexadecimal digits; a non-digit — including the abrupt end of an
odd-length string — raises `ValueError`. -/
def pyFromHexStep (k : List Char → Except String (List Nat)) :
    List Char → Except String (List Nat)
  | [] => .ok []
  | c :: rest =>
    if isPyWs c then k rest
    else
      match hexDigitVal c with
      | none => .error "ValueError: non-hexadecimal number found in fromhex() arg"
      | some hi =>
        match rest with
        | [] => .error "ValueError: non-hexadecimal number found in fromhex() arg"
        | c2 :: rest2 =>
          match hexDigitVal c2 with
          | none => .error "ValueError: non-hexadecimal number found in fromhex() arg"
          | some lo =>
            match k rest2 with
            | .ok bs => .ok ((16 * hi + lo) :: bs)
            | .error e => .error e

/-- `bytes.fromhex`, with fuel (`length + 1` always suffices). -/
def pyFromHex : Nat → List Char → Except String (List Nat)
  | 0, _ => .error "RecursionError"
  | fuel + 1, input => pyFromHexStep (pyFromHex fuel) input

/-- `struct.pack('<Q', n)`. -/
def pack8 (n : Nat) : Except String (List Nat) :=
  if n < 2 ^ 64 then
    .ok [n % 256, n / 256 % 256, n / 2 ^ 16 % 256, n / 2 ^ 24 % 256,
         n / 2 ^ 32 % 256, n / 2 ^ 40 % 256, n / 2 ^ 48 % 256, n / 2 ^ 56 % 256]
  else .error "struct.error: argument out of range"

/-- The conversion loop of `log_to_apx` (legacy.py, lines 176-196): for
each `(readout_id, hex_text)` line, `bytes.fromhex` failure logs a
warning and skips that single readout; otherwise the readout record —
marker, ID, timestamp `0`, length, padding-stripped data (the
`AstroPix4Readout` constructor strips trailing `0xff` bytes, and
`AbstractAstroPixReadout.write` emits the record) — is appended.  Returns
the record bytes, the warnings, and `num_readouts`. -/
def convLoop : List (Nat × List Char) → Except String (List Nat × List String × Nat)
  | [] => .ok ([], [], 0)
  | (rid, txt) :: rest =>
    match pyFromHex (txt.length + 1) txt with
    | .error e =>
      match convLoop rest with
      | .ok (bs, ws, n) =>
        .ok (bs, (e ++ " for readout " ++ String.mk (natStr rid)) :: ws, n)
      | .error er => .error er
    | .ok data =>
      match pack4 rid with
      | .error er => .error er
      | .ok ridB =>
        match pack8 0 with
        | .error er => .error er
        | .ok tsB =>
          match pack4 (rstripByte PADDING_BYTE data).length with
          | .error er => .error er
          | .ok lenB =>
            match convLoop rest with
            | .ok (bs, ws, n) =>
              .ok ((READOUT_HEADER ++ ridB ++ tsB ++ lenB
                  ++ rstripByte PADDING_BYTE data) ++ bs, ws, n + 1)
            | .error er => .error er

/-- The missing-metadata warning of `log_to_apx`, logged when the `.log`
header holds no items. -/
def metaWarn : JObj → List String
  | .nil => ["No metadata found in the input .log file!"]
  | .cons _ _ _ => []

/-- `log_to_apx` (legacy.py, lines 161-197) over an in-memory model of the
`.log` file: the parsed metadata header and the `(readout_id, hex_text)`
data lines.  Returns the output file bytes, the warnings in the order they
are logged (missing metadata first, then the per-line warnings, then the
empty-input warning), and the number of readouts written. -/
def log_to_apx (meta : JObj) (lines : List (Nat × List Char)) :
    Except String (List Nat × List String × Nat) :=
  match (mkFileHeader 4000 (some meta)).write with
  | .error e => .error e
  | .ok hb =>
    match convLoop lines with
    | .error e => .error e
    | .ok (bs, ws, n) =>
      .ok (hb ++ bs,
        (metaWarn meta ++ ws)
          ++ (if n = 0 then ["Input file appears to be empty."] else []),
        n)

theorem isPyWs_false_of_hexDigit (c : Char) (h : (hexDigitVal c).isSome = true) :
    isPyWs c = false := by
  rw [hexDigitVal] at h
  rw [isPyWs]
  simp only [decide_eq_false_iff_not]
  split_ifs at h with h1 h2 h3
  · omega
  · omega
  · omega
  · simp at h

theorem pyFromHex_odd : ∀ (fuel : Nat) (txt : List Char), txt.length + 1 ≤ fuel →
    (∀ c ∈ txt, (hexDigitVal c).isSome = true) → txt.length % 2 = 1 →
    pyFromHex fuel txt
      = .error "ValueError: non-hexadecimal number found in fromhex() arg" := by
  intro fuel
  induction fuel with
  | zero =>
    intro txt hf _ _
    omega
  | succ f ih =>
    intro txt hf hdig hodd
    match txt with
    | [] => simp at hodd
    | [c] =>
      have hc := hdig c (by simp)
      obtain ⟨hi, hhi⟩ := Option.isSome_iff_exists.mp hc
      rw [pyFromHex, pyFromHexStep]
      rw [if_neg (by rw [isPyWs_false_of_hexDigit c hc]; simp), hhi]
    | c :: c2 :: rest =>
      have hc := hdig c (by simp)
      have hc2 := hdig c2 (by simp)
      obtain ⟨hi, hhi⟩ := Option.isSome_iff_exists.mp hc
      obtain ⟨lo, hlo⟩ := Option.isSome_iff_exists.mp hc2
      rw [pyFromHex, pyFromHexStep]
      rw [if_neg (by rw [isPyWs_false_of_hexDigit c hc]; simp), hhi]
      dsimp only
      rw [hlo]
      dsimp only
      rw [ih rest (by simp at hf ⊢; omega)
        (fun d hd => hdig d (by simp [hd]))
        (by simp at hodd ⊢; omega)]

/-- Claim C7: during `.log`-to-`.apx` conversion, a line whose hex text
has an odd number of (hexadecimal) characters makes `bytes.fromhex`
raise `ValueError`; `log_to_apx` logs a warning for that single readout
and skips it, writing no record for it and converting the remaining
lines unchanged; and an input with no data lines still produces an
output file holding exactly the serialized header, with the
empty-input warning logged. -/
theorem log_to_apx_error_handling (rid : Nat) (txt : List Char) (meta : JObj)
    (lines : List (Nat × List Char)) (bs : List Nat) (ws : List String) (n : Nat)
    (hb : List Nat)
    (hdig : ∀ c ∈ txt, (hexDigitVal c).isSome = true)
    (hodd : txt.length % 2 = 1)
    (hloop : convLoop lines = .ok (bs, ws, n))
    (hwr : (mkFileHeader 4000 (some meta)).write = .ok hb) :
    pyFromHex (txt.length + 1) txt
      = .error "ValueError: non-hexadecimal number found in fromhex() arg"
    ∧ convLoop ((rid, txt) :: lines)
        = .ok (bs, ("ValueError: non-hexadecimal number found in fromhex() arg"
            ++ " for readout " ++ String.mk (natStr rid)) :: ws, n)
    ∧ log_to_apx meta ((rid, txt) :: lines)
        = .ok (hb ++ bs,
            (metaWarn meta
              ++ ("ValueError: non-hexadecimal number found in fromhex() arg"
                  ++ " for readout " ++ String.mk (natStr rid)) :: ws)
              ++ (if n = 0 then ["Input file appears to be empty."] else []), n)
    ∧ log_to_apx meta []
        = .ok (hb, metaWarn meta ++ ["Input file appears to be empty."], 0) := by
  have hpf := pyFromHex_odd (txt.length + 1) txt (le_refl _) hdig hodd
  have h2 : convLoop ((rid, txt) :: lines)
      = .ok (bs, ("ValueError: non-hexadecimal number found in fromhex() arg"
          ++ " for readout " ++ String.mk (natStr rid)) :: ws, n) := by
    rw [convLoop, hpf]
    dsimp only
    rw [hloop]
  refine ⟨hpf, h2, ?_, ?_⟩
  · rw [log_to_apx.eq_def, hwr]
    dsimp only
    rw [h2]
  · rw [log_to_apx.eq_def, hwr]
    dsimp only
    rw [show convLoop [] = .ok ([], [], 0) from rfl]
    dsimp only
    rw [if_pos rfl]
    simp

/-- Witness for C7: readout ID `7` with the odd hex text `"abc"`, no
further lines, and an empty metadata header. -/
theorem log_to_apx_error_handling_witness :
    pyFromHex 4 ['a', 'b', 'c']
      = .error "ValueError: non-hexadecimal number found in fromhex() arg"
    ∧ convLoop [(7, ['a', 'b', 'c'])]
        = .ok ([], ["ValueError: non-hexadecimal number found in fromhex() arg"
            ++ " for readout 7"], 0)
    ∧ log_to_apx .nil [(7, ['a', 'b', 'c'])]
        = .ok ([37, 65, 80, 88, 68, 70, 21, 0, 0, 0, 123, 34, 114, 101, 97, 100,
              111, 117, 116, 95, 117, 105, 100, 34, 58, 32, 52, 48, 48, 48, 125],
            ["No metadata found in the input .log file!",
             "ValueError: non-hexadecimal number found in fromhex() arg"
               ++ " for readout 7",
             "Input file appears to be empty."], 0)
    ∧ log_to_apx .nil []
        = .ok ([37, 65, 80, 88, 68, 70, 21, 0, 0, 0, 123, 34, 114, 101, 97, 100,
              111, 117, 116, 95, 117, 105, 100, 34, 58, 32, 52, 48, 48, 48, 125],
            ["No metadata found in the input .log file!",
             "Input file appears to be empty."], 0) :=
  log_to_apx_error_handling 7 ['a', 'b', 'c'] .nil [] [] [] 0
    [37, 65, 80, 88, 68, 70, 21, 0, 0, 0, 123, 34, 114, 101, 97, 100,
     111, 117, 116, 95, 117, 105, 100, 34, 58, 32, 52, 48, 48, 48, 125]
    (by decide) (by decide) rfl rfl

/-- Claim C9 (code bug): `Line` is *not* a fully specified fit model.  It
overrides the static method `value` instead of the abstract method
`evaluate`, so Python's ABC machinery refuses to instantiate it
(`Line()` raises `TypeError`), while `Constant` — which does override
`evaluate` — is instantiable; the `value` method itself would compute
`slope * x + intercept` (checked at `x = 2`, slope `3`, intercept `1`). -/
theorem line_not_instantiable :
    instantiable AbstractFitModel_abstract_methods Line_methods = false
    ∧ instantiable AbstractFitModel_abstract_methods Constant_methods = true
    ∧ Line_value 2 3 1 = 7 := by
  refine ⟨rfl, rfl, ?_⟩
  norm_num [Line_value]

end AstroPix
